import Mathlib

/-!
Verification development for the multi-tenant feature-engineering pipeline
(`backend/ml/config.py` and `backend/ml/features.py`).

The pandas `DataFrame` is embedded shallowly as an association list of named
columns; a column is a list of cells.  A cell models a pandas float64 entry:
`none` is NaN (missing), `some (PVal.num q)` a finite value (floats modelled
as exact rationals), and `some PVal.pinf` / `some PVal.ninf` the two
infinities, which pandas treats as present (non-NA) values.  Arithmetic on
cells follows IEEE-754 semantics: NaN propagates, `inf - inf = NaN`,
`x / 0 = ±inf` for `x ≠ 0` and `0 / 0 = NaN`.

Functions whose exact float value is irrational or calendar-dependent
(square roots, the trigonometric encodings of time features, the datetime
field accessors) are abstracted as parameters of type `ℚ → ℚ` collected in
`AbsOps`; the embedding tracks exactly where they are applied and how
missingness propagates, which is all the claims depend on.
-/

/-- Model of a pandas float64 value that is not NaN: a finite value (exact
rational) or one of the two infinities. -/
inductive PVal where
  | num (q : ℚ)
  | pinf
  | ninf
deriving DecidableEq, Repr

/-- Model of one pandas cell: `none` is NaN / missing. -/
abbrev Cell := Option PVal

/-- Model of one pandas column (a Series): cells in row order. -/
abbrev Col := List Cell

/-- Model of a pandas DataFrame: named columns in column order.  Column
names are unique in the frames the pipeline builds. -/
abbrev Df := List (String × Col)

/-- IEEE addition on non-NaN values; `inf + (-inf)` is NaN. -/
def PVal.add : PVal → PVal → Cell
  | .num a, .num b => some (.num (a + b))
  | .pinf, .ninf => none
  | .ninf, .pinf => none
  | .pinf, _ => some .pinf
  | .ninf, _ => some .ninf
  | .num _, .pinf => some .pinf
  | .num _, .ninf => some .ninf

/-- IEEE negation on non-NaN values. -/
def PVal.neg : PVal → PVal
  | .num a => .num (-a)
  | .pinf => .ninf
  | .ninf => .pinf

/-- IEEE multiplication on non-NaN values; `0 * inf` is NaN. -/
def PVal.mul : PVal → PVal → Cell
  | .num a, .num b => some (.num (a * b))
  | .num a, .pinf => if a = 0 then none else if 0 < a then some .pinf else some .ninf
  | .num a, .ninf => if a = 0 then none else if 0 < a then some .ninf else some .pinf
  | .pinf, .num b => if b = 0 then none else if 0 < b then some .pinf else some .ninf
  | .ninf, .num b => if b = 0 then none else if 0 < b then some .ninf else some .pinf
  | .pinf, .pinf => some .pinf
  | .pinf, .ninf => some .ninf
  | .ninf, .pinf => some .ninf
  | .ninf, .ninf => some .pinf

/-- IEEE division on non-NaN values; `x / 0` is `±inf` for `x ≠ 0` (pandas
emits infinities, not NaN, on division by zero), `0 / 0` and `inf / inf`
are NaN.  The zero divisor is treated as `+0`, as produced by the pipeline. -/
def PVal.div : PVal → PVal → Cell
  | .num a, .num b =>
      if b = 0 then (if a = 0 then none else if 0 < a then some .pinf else some .ninf)
      else some (.num (a / b))
  | .num _, .pinf => some (.num 0)
  | .num _, .ninf => some (.num 0)
  | .pinf, .num b => if b < 0 then some .ninf else some .pinf
  | .ninf, .num b => if b < 0 then some .pinf else some .ninf
  | .pinf, _ => none
  | .ninf, _ => none

/-- Total order used by pandas min / max / sort on non-NaN values. -/
def PVal.le : PVal → PVal → Bool
  | .ninf, _ => true
  | _, .pinf => true
  | .num a, .num b => decide (a ≤ b)
  | _, _ => false

/-- NaN-propagating cell addition. -/
def cadd : Cell → Cell → Cell
  | some a, some b => PVal.add a b
  | _, _ => none

/-- NaN-propagating cell subtraction. -/
def csub : Cell → Cell → Cell
  | some a, some b => PVal.add a (PVal.neg b)
  | _, _ => none

/-- NaN-propagating cell multiplication. -/
def cmul : Cell → Cell → Cell
  | some a, some b => PVal.mul a b
  | _, _ => none

/-- NaN-propagating cell division. -/
def cdiv : Cell → Cell → Cell
  | some a, some b => PVal.div a b
  | _, _ => none

/-- Absolute value of a cell (`np.abs`). -/
def cabs : Cell → Cell
  | some (.num q) => some (.num |q|)
  | some _ => some .pinf
  | none => none

/-- Elementwise `np.maximum`: NaN if either operand is NaN. -/
def cmax2 : Cell → Cell → Cell
  | some a, some b => if PVal.le a b then some b else some a
  | _, _ => none

/-- Application of an abstract real function to a cell: NaN and infinities
map to NaN (the abstract functions model bounded calendar / trig values). -/
def mapCell (f : ℚ → ℚ) : Cell → Cell
  | some (.num q) => some (.num (f q))
  | _ => none

/-- Elementwise application of an abstract real function to a column. -/
def mapColQ (f : ℚ → ℚ) (c : Col) : Col := c.map (mapCell f)

/-- Valid (non-NaN) values of a list of cells, in order. -/
def valids (xs : List Cell) : List PVal := xs.filterMap id

/-- Sum of non-NaN values (pandas sums skip NaN); starts from `0` like
`numpy.nansum`. -/
def sumP (l : List PVal) : Cell :=
  l.foldl (fun acc v => cadd acc (some v)) (some (.num 0))

/-- Mean over the valid values of a window / series; NaN when no value is
valid (this is `mean()` with pandas' default `skipna`). -/
def meanCells (xs : List Cell) : Cell :=
  let v := valids xs
  if v.length = 0 then none else cdiv (sumP v) (some (.num (v.length : ℚ)))

/-- Minimum over the valid values; NaN when none is valid. -/
def minCells (xs : List Cell) : Cell :=
  match valids xs with
  | [] => none
  | v :: vs => some (vs.foldl (fun a b => if PVal.le a b then a else b) v)

/-- Maximum over the valid values; NaN when none is valid. -/
def maxCells (xs : List Cell) : Cell :=
  match valids xs with
  | [] => none
  | v :: vs => some (vs.foldl (fun a b => if PVal.le a b then b else a) v)

/-- Sample variance (`ddof = 1`) over the valid values; NaN when fewer than
two values are valid. -/
def varCells (xs : List Cell) : Cell :=
  let v := valids xs
  if v.length < 2 then none
  else
    let m := cdiv (sumP v) (some (.num (v.length : ℚ)))
    let sq := v.foldl (fun acc x => cadd acc (cmul (csub (some x) m) (csub (some x) m)))
      (some (.num 0))
    cdiv sq (some (.num ((v.length : ℚ) - 1)))

/-- Square root of a cell, with the float square root abstracted as `sq`
(its exact value is irrational in general); `sqrt(-inf)` is NaN. -/
def sqrtCell (sq : ℚ → ℚ) : Cell → Cell
  | some (.num q) => some (.num (sq q))
  | some .pinf => some .pinf
  | _ => none

/-- Sample standard deviation (`std()` with `ddof = 1`): NaN when fewer
than two values are valid, otherwise the square root of the variance. -/
def stdCells (sq : ℚ → ℚ) (xs : List Cell) : Cell :=
  if (valids xs).length < 2 then none else sqrtCell sq (varCells xs)

/-- Insertion of a value into a sorted list of non-NaN values. -/
def insertP (a : PVal) : List PVal → List PVal
  | [] => [a]
  | b :: l => if PVal.le a b then a :: b :: l else b :: insertP a l

/-- Sort of non-NaN values, as done by pandas before median / quantile. -/
def sortP : List PVal → List PVal
  | [] => []
  | a :: l => insertP a (sortP l)

/-- Median over the valid values (`median()`): middle element, or the mean
of the two middle elements for an even count; NaN when no value is valid. -/
def medianCells (xs : List Cell) : Cell :=
  let v := sortP (valids xs)
  let n := v.length
  if n = 0 then none
  else if n % 2 = 1 then some (v.getD (n / 2) (.num 0))
  else cdiv (cadd (some (v.getD (n / 2 - 1) (.num 0))) (some (v.getD (n / 2) (.num 0))))
    (some (.num 2))

/-- Quantile with pandas' default linear interpolation over the sorted
valid values; NaN when no value is valid. -/
def quantileCells (q : ℚ) (xs : List Cell) : Cell :=
  let v := sortP (valids xs)
  let n := v.length
  if n = 0 then none
  else
    let pos : ℚ := q * ((n : ℚ) - 1)
    let lo : ℕ := (⌊pos⌋).toNat
    let frac : ℚ := pos - (lo : ℚ)
    if frac = 0 then some (v.getD lo (.num 0))
    else cadd (some (v.getD lo (.num 0)))
      (cmul (some (.num frac))
        (csub (some (v.getD (lo + 1) (.num 0))) (some (v.getD lo (.num 0)))))

/-- Column names of a frame, in order. -/
def cols (df : Df) : List String := df.map (fun p => p.1)

/-- Membership test `name in df.columns`. -/
def hasCol (df : Df) (n : String) : Bool := df.any (fun p => p.1 == n)

/-- Column lookup `df[name]` (first match; names are unique in the frames
the pipeline builds). -/
def getCol : Df → String → Option Col
  | [], _ => none
  | p :: rest, n => if p.1 = n then some p.2 else getCol rest n

/-- Column assignment `df[name] = col`: replaces the column of that name,
or appends a new column at the end, exactly as pandas does. -/
def setCol : Df → String → Col → Df
  | [], n, c => [(n, c)]
  | p :: rest, n, c => if p.1 = n then (n, c) :: rest else p :: setCol rest n c

/-- Number of rows (`len(df)`). -/
def nRows : Df → Nat
  | [] => 0
  | p :: _ => p.2.length

/-- Renaming `df.rename(columns=mapping)`: every column label that is a
key of the mapping is replaced by its image, all others are unchanged. -/
def renameCols (m : List (String × String)) (df : Df) : Df :=
  df.map (fun p => ((m.lookup p.1).getD p.1, p.2))

/-- Cells kept from a column by a row predicate over row indices. -/
def keepIdx (keep : Nat → Bool) (c : Col) : Col :=
  ((List.range c.length).filter keep).map (fun i => c.getD i none)

/-- Row filtering applied to every column of a frame. -/
def filterRows (df : Df) (keep : Nat → Bool) : Df :=
  df.map (fun p => (p.1, keepIdx keep p.2))

/-- Number of non-NaN cells in row `i` (`df.count(axis=1)` at one row). -/
def rowValidCount (df : Df) (i : Nat) : Nat :=
  df.countP (fun p => (p.2.getD i none).isSome)

/-- Model of `df.dropna(thresh=int(len(df.columns) * 0.7))`: keeps the rows
holding at least 70 percent non-NaN cells.  `int(n * 0.7)` in float
arithmetic equals `7 * n / 10` in integer arithmetic for every feasible
column count, so the threshold is embedded exactly. -/
def dropThresh (df : Df) : Df :=
  let t := (cols df).length * 7 / 10
  filterRows df (fun i => t ≤ rowValidCount df i)

/-- Model of `df.dropna()`: drops every row still containing a NaN. -/
def dropAnyNaN (df : Df) : Df :=
  filterRows df (fun i => rowValidCount df i = (cols df).length)

/-- Forward fill of one column, carrying the last valid value. -/
def ffillColAux : Cell → Col → Col
  | _, [] => []
  | last, c :: rest =>
    match c with
    | some v => some v :: ffillColAux (some v) rest
    | none => last :: ffillColAux last rest

/-- Model of `fillna(method='ffill')` on one column. -/
def ffillCol (c : Col) : Col := ffillColAux none c

/-- Model of `fillna(method='bfill')` on one column. -/
def bfillCol (c : Col) : Col := (ffillColAux none c.reverse).reverse

/-- Forward fill applied to every column. -/
def ffillDf (df : Df) : Df := df.map (fun p => (p.1, ffillCol p.2))

/-- Backward fill applied to every column. -/
def bfillDf (df : Df) : Df := df.map (fun p => (p.1, bfillCol p.2))

/-- Model of `series.shift(p)`: the cell at row `i` is the base cell at row
`i - p`, and NaN for the first `p` rows. -/
def shiftCol (p : Nat) (c : Col) : Col :=
  (List.range c.length).map (fun i => if i < p then none else c.getD (i - p) none)

/-- Model of `series.diff()`: first difference, NaN at the first row and
wherever an operand is NaN. -/
def diffCol (c : Col) : Col :=
  (List.range c.length).map (fun i =>
    if i = 0 then none else csub (c.getD i none) (c.getD (i - 1) none))

/-- Model of `series.pct_change()` with pandas' default `fill_method='pad'`:
the series is forward filled first, then `filled[i] / filled[i-1] - 1` is
taken; the first row is NaN. -/
def pctCol (c : Col) : Col :=
  let f := ffillCol c
  (List.range c.length).map (fun i =>
    if i = 0 then none
    else csub (cdiv (f.getD i none) (f.getD (i - 1) none)) (some (.num 1)))

/-- Trailing window of length at most `w` ending at row `i`. -/
def windowAt (w : Nat) (c : Col) (i : Nat) : Col :=
  (c.take (i + 1)).drop (i + 1 - w)

/-- Model of `series.rolling(window=w, min_periods=1).agg(f)` where `f`
itself returns NaN below its own arity (as `std` does). -/
def rollingApply (w : Nat) (f : List Cell → Cell) (c : Col) : Col :=
  (List.range c.length).map (fun i => f (windowAt w c i))

/-- Rolling mean with `min_periods=1`. -/
def rollingMean (w : Nat) (c : Col) : Col := rollingApply w meanCells c

/-- Rolling sample standard deviation with `min_periods=1`: NaN whenever
fewer than two valid samples are in the trailing window. -/
def rollingStd (sq : ℚ → ℚ) (w : Nat) (c : Col) : Col := rollingApply w (stdCells sq) c

/-- Rolling minimum with `min_periods=1`. -/
def rollingMin (w : Nat) (c : Col) : Col := rollingApply w minCells c

/-- Rolling maximum with `min_periods=1`. -/
def rollingMax (w : Nat) (c : Col) : Col := rollingApply w maxCells c

/-- Rolling median with `min_periods=1`. -/
def rollingMedian (w : Nat) (c : Col) : Col := rollingApply w medianCells c

/-- Elementwise combination of two equal-length columns. -/
def zipCells (f : Cell → Cell → Cell) (a b : Col) : Col := List.zipWith f a b

/-- Organization-specific SCADA schema configuration (`SchemaConfig` in
`config.py`). -/
structure SchemaConfig where
  continuous_columns : List String
  boolean_columns : List String
  column_mapping : List (String × String)
  lag_seconds : List Nat
  rolling_windows : List Nat
  target_column : String
  timestamp_column : String
deriving DecidableEq, Repr

/-- Mapped column name, or the original when no mapping exists
(`SchemaConfig.get_mapped_column`). -/
def SchemaConfig.getMappedColumn (s : SchemaConfig) (originalName : String) : String :=
  (s.column_mapping.lookup originalName).getD originalName

/-- Feature-name enumeration `SchemaConfig.get_all_feature_columns`: per
continuous column its base mapped name, one name per lag value and four
names per rolling window, then the mapped boolean columns. -/
def SchemaConfig.getAllFeatureColumns (s : SchemaConfig) : List String :=
  (s.continuous_columns.flatMap (fun col =>
    let m := s.getMappedColumn col
    (m :: s.lag_seconds.map (fun lagSec => m ++ "_lag_" ++ toString lagSec ++ "s"))
    ++ s.rolling_windows.flatMap (fun w =>
      [m ++ "_rolling_mean_" ++ toString w,
       m ++ "_rolling_std_" ++ toString w,
       m ++ "_rolling_min_" ++ toString w,
       m ++ "_rolling_max_" ++ toString w])))
  ++ s.boolean_columns.map (fun col => s.getMappedColumn col)

/-- SCADA database connection fields inspected by `validate`. -/
structure ScadaDbConfig where
  host : String
  database : String
  user : String
deriving DecidableEq, Repr

/-- Training-split fields inspected by `validate`. -/
structure TrainingConfig where
  validation_split : ℚ
  test_split : ℚ
deriving DecidableEq, Repr

/-- Data extraction configuration: dates are modelled as comparable epoch
integers, `sampling_interval_minutes` drives the lag-period derivation. -/
structure DataConfig where
  start_date : Int
  end_date : Int
  min_samples : Int
  sampling_interval_minutes : Nat
deriving DecidableEq, Repr

/-- Complete per-organization configuration (`OrganizationConfig`). -/
structure OrganizationConfig where
  organization_id : String
  scada_db : ScadaDbConfig
  schema : SchemaConfig
  training : TrainingConfig
  data : DataConfig
deriving DecidableEq, Repr

/-- Model of `OrganizationConfig.validate`: returns the list of error
messages, in the order the source appends them; it raises nothing. -/
def OrganizationConfig.validate (c : OrganizationConfig) : List String :=
  (if c.scada_db.host = "" then ["SCADA database host is required"] else [])
  ++ (if c.scada_db.database = "" then ["SCADA database name is required"] else [])
  ++ (if c.scada_db.user = "" then ["SCADA database user is required"] else [])
  ++ (if c.schema.continuous_columns = [] ∧ c.schema.boolean_columns = [] then
        ["At least one continuous or boolean column must be specified"] else [])
  ++ (if c.schema.target_column = "" then ["Target column is required"] else [])
  ++ (if c.data.end_date ≤ c.data.start_date then ["Start date must be before end date"] else [])
  ++ (if c.data.min_samples ≤ 0 then ["Minimum samples must be positive"] else [])
  ++ (if ¬(0 < c.training.validation_split ∧ c.training.validation_split < 1) then
        ["Validation split must be between 0 and 1"] else [])
  ++ (if ¬(0 < c.training.test_split ∧ c.training.test_split < 1) then
        ["Test split must be between 0 and 1"] else [])
  ++ (if 1 ≤ c.training.validation_split + c.training.test_split then
        ["Validation and test splits combined must be less than 1"] else [])

/-- Model of `ConfigManager.create_default_config`: the configuration is
validated, but a non-empty error list is only logged as a warning; the
configuration is saved and returned regardless. -/
def createDefaultConfig (config : OrganizationConfig) : OrganizationConfig :=
  let _warnings := config.validate
  config

/-- Abstract real-valued functions used by the generators whose exact
float values are irrational (square root, the sine / cosine encodings) or
calendar-dependent (the datetime field accessors on epoch timestamps).
The embedding applies them through `mapCell` / `sqrtCell`, so definedness
and missingness are tracked exactly while the values stay symbolic. -/
structure AbsOps where
  sqrt : ℚ → ℚ
  hour : ℚ → ℚ
  dayOfWeek : ℚ → ℚ
  dayOfMonth : ℚ → ℚ
  month : ℚ → ℚ
  quarter : ℚ → ℚ
  hourSin : ℚ → ℚ
  hourCos : ℚ → ℚ
  daySin : ℚ → ℚ
  dayCos : ℚ → ℚ
  monthSin : ℚ → ℚ
  monthCos : ℚ → ℚ

/-- Epsilon `1e-8` used by the pipeline to stabilize denominators. -/
def epsQ : ℚ := 1 / 100000000

/-- Name of a lag feature column: keyed by the original lag value in
seconds, not by the derived period. -/
def lagColName (m : String) (lagSec : Nat) : String :=
  m ++ "_lag_" ++ toString lagSec ++ "s"

/-- Name of a rolling feature column for a statistic and a window. -/
def rollingColName (m stat : String) (w : Nat) : String :=
  m ++ "_rolling_" ++ stat ++ "_" ++ toString w

/-- Model of `FeatureEngineer.create_time_based_features`: when the
timestamp column is present, derives the calendar fields, their cyclical
encodings, and the elapsed time since the first timestamp; otherwise a
no-op.  Timestamps are modelled as already-parsed epoch values, so the
`to_datetime` conversion is the identity here. -/
def createTimeBasedFeatures (ops : AbsOps) (s : SchemaConfig) (df : Df) : Df :=
  let ts := s.timestamp_column
  if hasCol df ts then
    let tsc := fun (d : Df) => (getCol d ts).getD []
    let d1 := setCol df "hour" (mapColQ ops.hour (tsc df))
    let d2 := setCol d1 "day_of_week" (mapColQ ops.dayOfWeek (tsc d1))
    let d3 := setCol d2 "day_of_month" (mapColQ ops.dayOfMonth (tsc d2))
    let d4 := setCol d3 "month" (mapColQ ops.month (tsc d3))
    let d5 := setCol d4 "quarter" (mapColQ ops.quarter (tsc d4))
    let hc := fun (d : Df) => (getCol d "hour").getD []
    let d6 := setCol d5 "hour_sin" (mapColQ ops.hourSin (hc d5))
    let d7 := setCol d6 "hour_cos" (mapColQ ops.hourCos (hc d6))
    let dc := fun (d : Df) => (getCol d "day_of_week").getD []
    let d8 := setCol d7 "day_sin" (mapColQ ops.daySin (dc d7))
    let d9 := setCol d8 "day_cos" (mapColQ ops.dayCos (dc d8))
    let mc := fun (d : Df) => (getCol d "month").getD []
    let d10 := setCol d9 "month_sin" (mapColQ ops.monthSin (mc d9))
    let d11 := setCol d10 "month_cos" (mapColQ ops.monthCos (mc d10))
    let tcol := tsc d11
    setCol d11 "time_since_start" (tcol.map (fun x => csub x (minCells tcol)))
  else df

/-- One assignment of the lag generator: `df[lag_col] = df[m].shift(p)`,
with the column keyed by the original lag-in-seconds value `lp.1` and
shifted by the derived period `lp.2`. -/
def lagSetOne (m : String) (df : Df) (lp : Nat × Nat) : Df :=
  match getCol df m with
  | some base => setCol df (lagColName m lp.1) (shiftCol lp.2 base)
  | none => df

/-- Inner loop of the lag generator for one mapped column: one `shift` per
configured lag. -/
def lagStep (lags : List (Nat × Nat)) (m : String) (df : Df) : Df :=
  lags.foldl (lagSetOne m) df

/-- Per-column step of the lag generator: a no-op when the mapped column
is absent from the frame. -/
def lagForCol (s : SchemaConfig) (pairs : List (Nat × Nat)) (d : Df) (col : String) : Df :=
  let m := s.getMappedColumn col
  if hasCol d m then lagStep pairs m d else d

/-- Model of `FeatureEngineer.create_lag_features`: lag seconds are
converted to periods with `max(1, lag_sec // sampling_interval)` where the
sampling interval in seconds is `sampling_interval_minutes * 60`; absent
mapped columns are skipped. -/
def createLagFeatures (cfg : DataConfig) (s : SchemaConfig) (df : Df) : Df :=
  let sampling := cfg.sampling_interval_minutes * 60
  let lagPeriods := s.lag_seconds.map (fun lagSec => max 1 (lagSec / sampling))
  s.continuous_columns.foldl (lagForCol s (s.lag_seconds.zip lagPeriods)) df

/-- One window of the rolling generator for one mapped column: mean,
sample standard deviation, min, max and median, each with
`min_periods=1`, re-reading the base column per assignment as the source
does. -/
def rollingSetWin (sq : ℚ → ℚ) (m : String) (d : Df) (w : Nat) : Df :=
  let base := fun (dd : Df) => (getCol dd m).getD []
  let d1 := setCol d (rollingColName m "mean" w) (rollingMean w (base d))
  let d2 := setCol d1 (rollingColName m "std" w) (rollingStd sq w (base d1))
  let d3 := setCol d2 (rollingColName m "min" w) (rollingMin w (base d2))
  let d4 := setCol d3 (rollingColName m "max" w) (rollingMax w (base d3))
  setCol d4 (rollingColName m "median" w) (rollingMedian w (base d4))

/-- Inner loop of the rolling generator for one mapped column. -/
def rollingStep (sq : ℚ → ℚ) (windows : List Nat) (m : String) (df : Df) : Df :=
  windows.foldl (rollingSetWin sq m) df

/-- Per-column step of the rolling generator: a no-op when the mapped
column is absent from the frame. -/
def rollingForCol (sq : ℚ → ℚ) (s : SchemaConfig) (d : Df) (col : String) : Df :=
  let m := s.getMappedColumn col
  if hasCol d m then rollingStep sq s.rolling_windows m d else d

/-- Model of `FeatureEngineer.create_rolling_features`. -/
def createRollingFeatures (ops : AbsOps) (s : SchemaConfig) (df : Df) : Df :=
  s.continuous_columns.foldl (rollingForCol ops.sqrt s) df

/-- Inner step of the rate-of-change generator for one mapped column:
first difference, second difference (difference of the stored first
difference), and percentage change. -/
def rocStep (m : String) (df : Df) : Df :=
  let base := fun (dd : Df) => (getCol dd m).getD []
  let d1 := setCol df (m ++ "_roc") (diffCol (base df))
  let rocc := (getCol d1 (m ++ "_roc")).getD []
  let d2 := setCol d1 (m ++ "_acceleration") (diffCol rocc)
  setCol d2 (m ++ "_pct_change") (pctCol (base d2))

/-- Per-column step of the rate-of-change generator: a no-op when the
mapped column is absent from the frame. -/
def rocForCol (s : SchemaConfig) (d : Df) (col : String) : Df :=
  let m := s.getMappedColumn col
  if hasCol d m then rocStep m d else d

/-- Model of `FeatureEngineer.create_rate_of_change_features`. -/
def createRateOfChangeFeatures (s : SchemaConfig) (df : Df) : Df :=
  s.continuous_columns.foldl (rocForCol s) df

/-- Fixed interaction pairs of `create_interaction_features`. -/
def keyInteractions : List (String × String) :=
  [("temperature", "pressure"), ("current", "voltage"),
   ("vibration", "rpm"), ("flow_rate", "pressure")]

/-- Inner step of the interaction generator for one mapped pair: product,
epsilon-stabilized ratio, and difference. -/
def interactionStep (c1 c2 : String) (df : Df) : Df :=
  let g := fun (dd : Df) (n : String) => (getCol dd n).getD []
  let d1 := setCol df (c1 ++ "_" ++ c2 ++ "_mult") (zipCells cmul (g df c1) (g df c2))
  let d2 := setCol d1 (c1 ++ "_" ++ c2 ++ "_ratio")
    (zipCells cdiv (g d1 c1) ((g d1 c2).map (fun x => cadd x (some (.num epsQ)))))
  setCol d2 (c1 ++ "_" ++ c2 ++ "_diff") (zipCells csub (g d2 c1) (g d2 c2))

/-- Model of `FeatureEngineer.create_interaction_features`: each fixed
pair is generated only when both mapped columns are present. -/
def createInteractionFeatures (s : SchemaConfig) (df : Df) : Df :=
  keyInteractions.foldl (fun d pr =>
    let c1 := s.getMappedColumn pr.1
    let c2 := s.getMappedColumn pr.2
    if hasCol d c1 && hasCol d c2 then interactionStep c1 c2 d else d) df

/-- Model of `FeatureEngineer.create_statistical_features`: row-wise
statistics across the present continuous columns, generated only when at
least two of them are present. -/
def createStatisticalFeatures (ops : AbsOps) (s : SchemaConfig) (df : Df) : Df :=
  let ccols := (s.continuous_columns.map s.getMappedColumn).filter (fun m => hasCol df m)
  if 2 ≤ ccols.length then
    let rowAt := fun (d : Df) (i : Nat) => ccols.map (fun m => ((getCol d m).getD []).getD i none)
    let n := nRows df
    let d1 := setCol df "mean_all_continuous" ((List.range n).map (fun i => meanCells (rowAt df i)))
    let d2 := setCol d1 "std_all_continuous"
      ((List.range n).map (fun i => stdCells ops.sqrt (rowAt d1 i)))
    let d3 := setCol d2 "min_all_continuous" ((List.range n).map (fun i => minCells (rowAt d2 i)))
    let d4 := setCol d3 "max_all_continuous" ((List.range n).map (fun i => maxCells (rowAt d3 i)))
    let g := fun (dd : Df) (nm : String) => (getCol dd nm).getD []
    let d5 := setCol d4 "range_all_continuous"
      (zipCells csub (g d4 "max_all_continuous") (g d4 "min_all_continuous"))
    setCol d5 "cv_all_continuous"
      (zipCells cdiv (g d5 "std_all_continuous")
        ((g d5 "mean_all_continuous").map (fun x => cadd x (some (.num epsQ)))))
  else df

/-- Test `np.abs(z) > 3` on one cell: false (hence flag 0) on NaN, true on
an infinity. -/
def absGt3 : Cell → Bool
  | some (.num q) => decide (3 < |q|)
  | some _ => true
  | none => false

/-- Inner step of the anomaly generator for one mapped column: z-score
against the series mean and standard deviation (epsilon-stabilized), the
`|z| > 3` flag (an always-present 0/1 value), and the absolute distance
from a 20-sample rolling mean. -/
def anomalyStep (sq : ℚ → ℚ) (m : String) (df : Df) : Df :=
  let base := fun (dd : Df) => (getCol dd m).getD []
  let meanV := meanCells (base df)
  let stdV := stdCells sq (base df)
  let d1 := setCol df (m ++ "_z_score")
    ((base df).map (fun x => cdiv (csub x meanV) (cadd stdV (some (.num epsQ)))))
  let zread := (getCol d1 (m ++ "_z_score")).getD []
  let d2 := setCol d1 (m ++ "_anomaly")
    (zread.map (fun z => some (.num (if absGt3 z then 1 else 0))))
  let rm := rollingMean 20 (base d2)
  setCol d2 (m ++ "_distance_from_mean")
    (zipCells (fun a b => cabs (csub a b)) (base d2) rm)

/-- Model of `FeatureEngineer.create_anomaly_features`. -/
def createAnomalyFeatures (sq : ℚ → ℚ) (s : SchemaConfig) (df : Df) : Df :=
  s.continuous_columns.foldl (fun d col =>
    let m := s.getMappedColumn col
    if hasCol d m then anomalyStep sq m d else d) df

/-- Finite numeric contents of a window, when every cell is a present
finite value (the guard under which `np.polyfit` yields a finite slope). -/
def numsOf (c : Col) : Option (List ℚ) :=
  c.mapM (fun x => match x with | some (.num q) => some q | _ => none)

/-- Least-squares slope of values against sample positions `0, 1, ...`
(`np.polyfit(range(len(x)), x, 1)[0]`). -/
def slopeLS (ys : List ℚ) : ℚ :=
  let n : ℚ := (ys.length : ℚ)
  let xbar : ℚ := (n - 1) / 2
  let ybar : ℚ := ys.sum / n
  let sxy := (ys.enum.map (fun p => ((p.1 : ℚ) - xbar) * (p.2 - ybar))).sum
  let sxx := (ys.enum.map (fun p => ((p.1 : ℚ) - xbar) * ((p.1 : ℚ) - xbar))).sum
  sxy / sxx

/-- Model of the vibration-trend column: `rolling(window=10)` (so
`min_periods` is 10) applied to the least-squares slope; NaN for the first
nine rows and whenever the window is not ten present finite values. -/
def vibTrendCol (c : Col) : Col :=
  (List.range c.length).map (fun i =>
    if i + 1 < 10 then none
    else
      match numsOf (windowAt 10 c i) with
      | some ys => if 10 ≤ ys.length then some (.num (slopeLS ys)) else none
      | none => none)

/-- Model of `FeatureEngineer.create_domain_specific_features`: each
block of physically-motivated composites is generated only when its
required mapped inputs are present. -/
def createDomainSpecificFeatures (s : SchemaConfig) (df : Df) : Df :=
  let g := fun (dd : Df) (n : String) => (getCol dd n).getD []
  let currentCol := s.getMappedColumn "current"
  let voltageCol := s.getMappedColumn "voltage"
  let d1 :=
    if hasCol df currentCol && hasCol df voltageCol then
      let da := setCol df "power" (zipCells cmul (g df currentCol) (g df voltageCol))
      setCol da "power_factor"
        (zipCells cdiv (g da "power")
          ((zipCells cmul (g da currentCol) (g da voltageCol)).map
            (fun x => cadd x (some (.num epsQ)))))
    else df
  let tempCol := s.getMappedColumn "temperature"
  let d2 :=
    if hasCol d1 tempCol then
      let da := setCol d1 "temp_efficiency"
        ((g d1 tempCol).map (fun x => cdiv (some (.num 1)) (cadd x (some (.num epsQ)))))
      let normalTemp := quantileCells (1 / 2) (g da tempCol)
      setCol da "temp_stress"
        ((g da tempCol).map (fun x => cmax2 (some (.num 0)) (csub x normalTemp)))
    else d1
  let vibrationCol := s.getMappedColumn "vibration"
  let d3 :=
    if hasCol d2 vibrationCol then
      let maxVibration := quantileCells (95 / 100) (g d2 vibrationCol)
      let da := setCol d2 "vibration_health"
        ((g d2 vibrationCol).map (fun x =>
          csub (some (.num 1)) (cdiv x (cadd maxVibration (some (.num epsQ))))))
      setCol da "vibration_trend" (vibTrendCol (g da vibrationCol))
    else d2
  let flowCol := s.getMappedColumn "flow_rate"
  let pressureCol := s.getMappedColumn "pressure"
  if hasCol d3 flowCol && hasCol d3 pressureCol then
    let da := setCol d3 "flow_efficiency"
      (zipCells (fun a b => cdiv a (cadd b (some (.num epsQ)))) (g d3 flowCol) (g d3 pressureCol))
    setCol da "hydraulic_power" (zipCells cmul (g da flowCol) (g da pressureCol))
  else d3

/-- The cleaning step of `engineer_features` (lines 363-371): drop rows
below the 70 percent threshold, forward fill, backward fill, then drop any
row still containing a NaN. -/
def cleanDf (df : Df) : Df :=
  dropAnyNaN (bfillDf (ffillDf (dropThresh df)))

/-- Stable ascending argsort of a score list, as `np.argsort` with a
stable sort kind produces inside `SelectKBest`. -/
def argsortAsc (scores : List ℚ) : List Nat :=
  List.insertionSort (fun i j => scores.getD i 0 ≤ scores.getD j 0) (List.range scores.length)

/-- Indices retained by `SelectKBest(k).get_support(indices=True)`: the
`k` highest-scoring indices, reported in ascending index order. -/
def topKIndices (scores : List ℚ) (k : Nat) : List Nat :=
  let asc := argsortAsc scores
  List.insertionSort (fun a b => a ≤ b) (asc.drop (asc.length - k))

/-- Fallible elementwise mapping: `none` as soon as one element fails,
modelling a Python comprehension that may raise. -/
def mapOpt {A B : Type} (f : A -> Option B) : List A -> Option (List B)
  | [] => some []
  | a :: l =>
    match f a, mapOpt f l with
    | some b, some bs => some (b :: bs)
    | _, _ => none

/-- Column selection `df[names]`: fails (pandas `KeyError`) when a
requested column is absent. -/
def reindex (df : Df) (names : List String) : Option Df :=
  mapOpt (fun n => (getCol df n).map (fun c => (n, c))) names

/-- Scores assigned by the statistical test inside `select_features`: the
candidate matrix and target are masked to the rows where no candidate and
not the target is NaN, then handed to the scoring function. -/
def selectorScores (scoreFn : List Col → Col → List ℚ) (df : Df)
    (featureCols : List String) (y : Col) : List ℚ :=
  let X := featureCols.map (fun c => (getCol df c).getD [])
  let keep := fun i => (X.all (fun c => (c.getD i none).isSome)) && (y.getD i none).isSome
  let Xclean := X.map (fun c => keepIdx keep c)
  let yclean := keepIdx keep y
  scoreFn Xclean yclean

/-- Model of `FeatureEngineer.select_features`: rows where any candidate
feature or the target is NaN are masked out, the remaining data is scored
by the statistical test (`f_classif` is external to the repository and
abstracted as `scoreFn`, one score per candidate), `min(k, len)` top
indices are retained in ascending index order, and the reduced frame keeps
the selected features plus target and timestamp.  An index outside the
candidate list (a score list of the wrong length) is a Python error,
modelled as `none`. -/
def selectFeatures (scoreFn : List Col → Col → List ℚ) (s : SchemaConfig) (df : Df)
    (targetCol : String) (featureCols : List String) (k : Nat) : Option (Df × List String) :=
  match getCol df targetCol with
  | none => none
  | some y =>
    if featureCols.all (fun c => hasCol df c) then
      let scores := selectorScores scoreFn df featureCols y
      let kk := min k featureCols.length
      let support := topKIndices scores kk
      (mapOpt (fun i => featureCols.get? i) support).bind (fun selected =>
        (reindex df (selected ++ [targetCol, s.timestamp_column])).map (fun dfSel =>
          (dfSel, selected)))
    else none

/-- The generator chain of `engineer_features`, in its fixed order. -/
def runGenerators (ops : AbsOps) (cfg : DataConfig) (s : SchemaConfig) (df : Df) : Df :=
  let d1 := createTimeBasedFeatures ops s df
  let d2 := createLagFeatures cfg s d1
  let d3 := createRollingFeatures ops s d2
  let d4 := createRateOfChangeFeatures s d3
  let d5 := createInteractionFeatures s d4
  let d6 := createStatisticalFeatures ops s d5
  let d7 := createAnomalyFeatures ops.sqrt s d6
  createDomainSpecificFeatures s d7

/-- The candidate feature list of `engineer_features`: all columns of the
cleaned frame except the target and timestamp columns. -/
def featureColumnsOf (s : SchemaConfig) (dfc : Df) : List String :=
  (cols dfc).filter (fun c => decide (c ≠ s.target_column ∧ c ≠ s.timestamp_column))

/-- Model of `FeatureEngineer.engineer_features`: column renaming, the
generator chain, the cleaning step, the candidate list (all columns except
target and timestamp), and selection only when requested and the candidate
count strictly exceeds `maxFeatures`. -/
def engineerFeatures (ops : AbsOps) (scoreFn : List Col → Col → List ℚ)
    (cfg : DataConfig) (s : SchemaConfig) (df0 : Df)
    (includeSelection : Bool) (maxFeatures : Nat) : Option (Df × List String) :=
  let dfr := renameCols s.column_mapping df0
  let dfg := runGenerators ops cfg s dfr
  let dfc := cleanDf dfg
  let featureCols := featureColumnsOf s dfc
  if includeSelection && decide (maxFeatures < featureCols.length) then
    selectFeatures scoreFn s dfc s.target_column featureCols maxFeatures
  else some (dfc, featureCols)

/-! Generic lemmas about the frame operations. -/

theorem getCol_setCol_self (df : Df) (n : String) (c : Col) :
    getCol (setCol df n c) n = some c := by
  induction df with
  | nil => simp [setCol, getCol]
  | cons p rest ih =>
    by_cases h : p.1 = n
    · simp [setCol, h, getCol]
    · simp [setCol, h, getCol, ih]

theorem getCol_cons_of_ne {p : String × Col} {rest : Df} {n : String} (h : p.1 ≠ n) :
    getCol (p :: rest) n = getCol rest n := by
  simp [getCol, h]

theorem getCol_setCol_ne (df : Df) {n n' : String} (h : n' ≠ n) (c : Col) :
    getCol (setCol df n c) n' = getCol df n' := by
  induction df with
  | nil =>
    simp only [setCol]
    exact getCol_cons_of_ne (fun he => h he.symm)
  | cons p rest ih =>
    by_cases hp : p.1 = n
    · simp only [setCol, hp, if_true]
      rw [getCol_cons_of_ne (p := (n, c)) (fun he => h he.symm),
        getCol_cons_of_ne (fun he => h (hp.symm.trans he).symm)]
    · simp only [setCol, hp, if_false]
      by_cases hq : p.1 = n'
      · simp [getCol, hq]
      · rw [getCol_cons_of_ne hq, getCol_cons_of_ne hq, ih]

theorem hasCol_iff {df : Df} {n : String} : hasCol df n = true ↔ n ∈ cols df := by
  simp [hasCol, cols, List.any_eq_true]

theorem mem_cols_setCol_self (df : Df) (n : String) (c : Col) :
    n ∈ cols (setCol df n c) := by
  induction df with
  | nil => simp [setCol, cols]
  | cons p rest ih =>
    by_cases h : p.1 = n
    · simp [setCol, h, cols]
    · simp only [setCol, h, if_false, cols, List.map_cons, List.mem_cons]
      exact Or.inr ih

theorem mem_cols_setCol (df : Df) {x : String} (h : x ∈ cols df) (n : String) (c : Col) :
    x ∈ cols (setCol df n c) := by
  induction df with
  | nil => simp [cols] at h
  | cons p rest ih =>
    by_cases hp : p.1 = n
    · simp only [setCol, hp, if_true, cols, List.map_cons, List.mem_cons] at h ⊢
      exact h
    · simp only [setCol, hp, if_false, cols, List.map_cons, List.mem_cons] at h ⊢
      rcases h with h | h
      · exact Or.inl h
      · exact Or.inr (ih h)

theorem getCol_mem (df : Df) {n : String} {c : Col} (h : getCol df n = some c) :
    (n, c) ∈ df := by
  induction df with
  | nil => simp [getCol] at h
  | cons p rest ih =>
    cases p with
    | mk a b =>
      by_cases hp : a = n
      · have hb : b = c := by simpa [getCol, hp] using h
        subst hp
        subst hb
        exact List.mem_cons_self _ _
      · have hm := ih (by simpa [getCol, hp] using h)
        exact List.mem_cons_of_mem _ hm

/-! Claim C3: validation of an invalid schema. -/

/-- Concrete configuration whose schema has an empty target column and
empty continuous and boolean column lists. -/
def badConfig : OrganizationConfig :=
  { organization_id := "org1"
    scada_db := { host := "localhost", database := "scada", user := "postgres" }
    schema := { continuous_columns := [], boolean_columns := [], column_mapping := [],
                lag_seconds := [60], rolling_windows := [5],
                target_column := "", timestamp_column := "timestamp" }
    training := { validation_split := 1/5, test_split := 1/10 }
    data := { start_date := 0, end_date := 1, min_samples := 1000,
              sampling_interval_minutes := 5 } }

/-- Claim C3 is false on the code: for a schema with an empty target
column and no declared columns, `validate` reports errors, yet no
exception is raised and `create_default_config` still produces (returns)
the configuration. -/
theorem C3_counterexample :
    badConfig.validate ≠ [] ∧ createDefaultConfig badConfig = badConfig := by
  constructor
  · decide
  · rfl

/-- Claim C3 (amended): validating a configuration whose schema has an
empty target column, or both column lists empty, returns the
corresponding error messages in the error list; but construction does not
fail: `create_default_config` only logs the messages and returns the
configuration unchanged. -/
theorem C3_validate_reports_without_failing (c : OrganizationConfig) :
    (c.schema.target_column = "" → "Target column is required" ∈ c.validate)
    ∧ (c.schema.continuous_columns = [] → c.schema.boolean_columns = [] →
        "At least one continuous or boolean column must be specified" ∈ c.validate)
    ∧ createDefaultConfig c = c := by
  refine ⟨?_, ?_, rfl⟩
  · intro h
    simp [OrganizationConfig.validate, h]
  · intro h1 h2
    simp [OrganizationConfig.validate, h1, h2]

/-- Witness for the amended claim C3 on the concrete configuration. -/
theorem C3_validate_reports_without_failing_witness :
    ("Target column is required" ∈ badConfig.validate)
    ∧ ("At least one continuous or boolean column must be specified" ∈ badConfig.validate)
    ∧ createDefaultConfig badConfig = badConfig :=
  ⟨(C3_validate_reports_without_failing badConfig).1 rfl,
   (C3_validate_reports_without_failing badConfig).2.1 rfl rfl,
   (C3_validate_reports_without_failing badConfig).2.2⟩

/-! Cleaner lemmas: the output of `cleanDf` has no missing cell and all
its columns have equal length, and on such a frame every cleaning step is
the identity. -/

/-- A frame without missing cells. -/
def noneFree (df : Df) : Prop := ∀ p ∈ df, ∀ x ∈ p.2, x.isSome = true

/-- A frame whose columns all have the same length. -/
def balanced (df : Df) : Prop := ∀ p ∈ df, ∀ p' ∈ df, p.2.length = p'.2.length

theorem map_getD_range {α : Type} (l : List α) (d : α) :
    (List.range l.length).map (fun i => l.getD i d) = l := by
  induction l with
  | nil => simp
  | cons a t ih =>
    rw [List.length_cons, List.range_succ_eq_map, List.map_cons, List.map_map]
    have h2 : (List.range t.length).map ((fun i => (a :: t).getD i d) ∘ Nat.succ)
        = (List.range t.length).map (fun i => t.getD i d) :=
      List.map_congr_left (fun i _ => by simp [List.getD_cons_succ])
    rw [h2, ih]
    simp [List.getD_cons_zero]

theorem keepIdx_all_true {keep : Nat → Bool} {c : Col}
    (h : ∀ i < c.length, keep i = true) : keepIdx keep c = c := by
  unfold keepIdx
  rw [List.filter_eq_self.mpr (fun i hi => h i (List.mem_range.mp hi))]
  exact map_getD_range c none

theorem filter_range_congr {keep : Nat → Bool} {a b : Nat} (hab : a ≤ b)
    (hbound : ∀ i, keep i = true → i < a) :
    (List.range b).filter keep = (List.range a).filter keep := by
  obtain ⟨k, rfl⟩ := Nat.exists_eq_add_of_le hab
  rw [List.range_add, List.filter_append]
  have hnil : List.filter keep (List.map (fun x => a + x) (List.range k)) = [] := by
    rw [List.filter_map]
    have hinner : List.filter (keep ∘ fun x => a + x) (List.range k) = [] := by
      refine List.filter_eq_nil_iff.mpr ?_
      intro i _ hk
      have hk' : keep (a + i) = true := hk
      have := hbound _ hk'
      omega
    rw [hinner, List.map_nil]
  rw [hnil, List.append_nil]

theorem isSome_getD_lt {c : Col} {i : Nat} (h : (c.getD i none).isSome = true) :
    i < c.length := by
  by_contra hn
  rw [List.getD_eq_default _ _ (by omega)] at h
  simp at h

theorem keepIdx_length {keep : Nat → Bool} {c : Col} :
    (keepIdx keep c).length = ((List.range c.length).filter keep).length := by
  simp [keepIdx]

theorem dropAnyNaN_noneFree (df : Df) : noneFree (dropAnyNaN df) := by
  intro p hp x hx
  simp only [dropAnyNaN, filterRows, List.mem_map] at hp
  obtain ⟨q, hq, rfl⟩ := hp
  simp only [keepIdx, List.mem_map, List.mem_filter, List.mem_range] at hx
  obtain ⟨i, ⟨_, hkeep⟩, rfl⟩ := hx
  have hcount : rowValidCount df i = (cols df).length := by
    simpa using hkeep
  have hall : ∀ p' ∈ df, ((p'.2.getD i none).isSome) = true := by
    have := List.countP_eq_length.mp (by
      rw [rowValidCount] at hcount
      rw [hcount]
      simp [cols])
    exact this
  exact hall q hq

theorem dropAnyNaN_balanced (df : Df) : balanced (dropAnyNaN df) := by
  intro p hp p' hp'
  simp only [dropAnyNaN, filterRows, List.mem_map] at hp hp'
  obtain ⟨q, hq, rfl⟩ := hp
  obtain ⟨q', hq', rfl⟩ := hp'
  simp only [keepIdx_length]
  set keep := fun i => decide (rowValidCount df i = (cols df).length) with hkdef
  have hbound : ∀ c : Col, (q'' : String × Col) → q'' ∈ df → c = q''.2 →
      ∀ i, keep i = true → i < c.length := by
    intro c q'' hq'' hc i hk
    have hcount : rowValidCount df i = (cols df).length := by simpa [hkdef] using hk
    have hall := List.countP_eq_length.mp (by
      rw [rowValidCount] at hcount
      rw [hcount]
      simp [cols])
    subst hc
    exact isSome_getD_lt (hall q'' hq'')
  have h1 := filter_range_congr (a := q.2.length) (b := max q.2.length q'.2.length)
    (Nat.le_max_left _ _) (hbound q.2 q hq rfl)
  have h2 := filter_range_congr (a := q'.2.length) (b := max q.2.length q'.2.length)
    (Nat.le_max_right _ _) (hbound q'.2 q' hq' rfl)
  rw [← h1, ← h2]

theorem filterRows_eq_self {df : Df} {keep : Nat → Bool}
    (h : ∀ p ∈ df, keepIdx keep p.2 = p.2) : filterRows df keep = df := by
  unfold filterRows
  calc df.map (fun p => (p.1, keepIdx keep p.2)) = df.map id := by
        refine List.map_congr_left ?_
        intro p hp
        rw [h p hp]
        exact Prod.mk.eta
      _ = df := List.map_id df

theorem cols_length_eq (df : Df) : (cols df).length = df.length := by
  simp [cols]

theorem rowValidCount_full {df : Df} {i : Nat} (hnf : noneFree df) (hb : balanced df)
    (hp : ∃ p ∈ df, i < p.2.length) : rowValidCount df i = (cols df).length := by
  rw [rowValidCount, cols_length_eq]
  refine List.countP_eq_length.mpr ?_
  intro q hq
  obtain ⟨p, hpm, hpi⟩ := hp
  have hlen : i < q.2.length := by
    have := hb p hpm q hq
    omega
  have hgd : q.2.getD i none = q.2[i] := by
    rw [List.getD_eq_getElem?_getD, List.getElem?_eq_getElem hlen]
    rfl
  rw [hgd]
  exact hnf q hq _ (List.getElem_mem hlen)

theorem dropThresh_of_clean {df : Df} (hnf : noneFree df) (hb : balanced df) :
    dropThresh df = df := by
  unfold dropThresh
  refine filterRows_eq_self ?_
  intro p hp
  refine keepIdx_all_true ?_
  intro i hi
  have hcount : rowValidCount df i = (cols df).length :=
    rowValidCount_full hnf hb ⟨p, hp, hi⟩
  simp only [hcount, decide_eq_true_eq]
  omega

theorem dropAnyNaN_of_clean {df : Df} (hnf : noneFree df) (hb : balanced df) :
    dropAnyNaN df = df := by
  unfold dropAnyNaN
  refine filterRows_eq_self ?_
  intro p hp
  refine keepIdx_all_true ?_
  intro i hi
  simp only [decide_eq_true_eq]
  exact rowValidCount_full hnf hb ⟨p, hp, hi⟩

theorem ffillColAux_of_all_some {c : Col} (h : ∀ x ∈ c, x.isSome = true) :
    ∀ last, ffillColAux last c = c := by
  induction c with
  | nil => intro last; rfl
  | cons a t ih =>
    intro last
    cases a with
    | some v =>
      simp only [ffillColAux]
      rw [ih (fun x hx => h x (List.mem_cons_of_mem _ hx)) (some v)]
    | none =>
      have hn := h none (List.mem_cons_self _ _)
      simp at hn

theorem ffillCol_of_all_some {c : Col} (h : ∀ x ∈ c, x.isSome = true) :
    ffillCol c = c :=
  ffillColAux_of_all_some h none

theorem bfillCol_of_all_some {c : Col} (h : ∀ x ∈ c, x.isSome = true) :
    bfillCol c = c := by
  unfold bfillCol
  rw [ffillColAux_of_all_some (fun x hx => h x (List.mem_reverse.mp hx)) none,
    List.reverse_reverse]

theorem ffillDf_of_clean {df : Df} (hnf : noneFree df) : ffillDf df = df := by
  unfold ffillDf
  calc df.map (fun p => (p.1, ffillCol p.2)) = df.map id := by
        refine List.map_congr_left ?_
        intro p hp
        rw [ffillCol_of_all_some (hnf p hp)]
        exact Prod.mk.eta
      _ = df := List.map_id df

theorem bfillDf_of_clean {df : Df} (hnf : noneFree df) : bfillDf df = df := by
  unfold bfillDf
  calc df.map (fun p => (p.1, bfillCol p.2)) = df.map id := by
        refine List.map_congr_left ?_
        intro p hp
        rw [bfillCol_of_all_some (hnf p hp)]
        exact Prod.mk.eta
      _ = df := List.map_id df

theorem cleanDf_noneFree (df : Df) : noneFree (cleanDf df) :=
  dropAnyNaN_noneFree _

theorem cleanDf_balanced (df : Df) : balanced (cleanDf df) :=
  dropAnyNaN_balanced _

/-- Claim C7: the four-step cleaning policy is idempotent — applied to its
own output it drops no further row and changes no cell, because its output
contains no missing value at all, so the threshold filter keeps every row,
both fills are no-ops, and the final drop keeps every row. -/
theorem C7_cleaner_idempotent (df : Df) : cleanDf (cleanDf df) = cleanDf df := by
  have hnf := cleanDf_noneFree df
  have hb := cleanDf_balanced df
  show dropAnyNaN (bfillDf (ffillDf (dropThresh (cleanDf df)))) = cleanDf df
  rw [dropThresh_of_clean hnf hb, ffillDf_of_clean hnf, bfillDf_of_clean hnf,
    dropAnyNaN_of_clean hnf hb]

/-! Lemmas about `mapOpt`, `reindex` and `selectFeatures`. -/

theorem mapOpt_forall2 {A B : Type} (f : A → Option B) :
    ∀ (l : List A) (l' : List B), mapOpt f l = some l' →
      List.Forall₂ (fun a b => f a = some b) l l'
  | [], l', h => by
    simp only [mapOpt, Option.some.injEq] at h
    subst h
    exact List.Forall₂.nil
  | a :: t, l', h => by
    simp only [mapOpt] at h
    cases hfa : f a with
    | none => rw [hfa] at h; cases h
    | some b =>
      rw [hfa] at h
      cases hmt : mapOpt f t with
      | none => rw [hmt] at h; cases h
      | some bs =>
        rw [hmt] at h
        simp only [Option.some.injEq] at h
        subst h
        exact List.Forall₂.cons hfa (mapOpt_forall2 f t bs hmt)

theorem reindex_cols {df : Df} {names : List String} {r : Df}
    (h : reindex df names = some r) : cols r = names := by
  have hf := mapOpt_forall2 _ names r h
  clear h
  induction hf with
  | nil => rfl
  | @cons n pr t rt hh _ ih =>
    cases hg : getCol df n with
    | none => rw [hg] at hh; cases hh
    | some c =>
      rw [hg] at hh
      simp only [Option.map_some', Option.some.injEq] at hh
      subst hh
      simpa [cols] using ih

theorem reindex_mem {df : Df} {names : List String} {r : Df}
    (h : reindex df names = some r) : ∀ pr ∈ r, getCol df pr.1 = some pr.2 := by
  have hf := mapOpt_forall2 _ names r h
  clear h
  induction hf with
  | nil => intro pr hpr; cases hpr
  | @cons n pr' t rt hh _ ih =>
    intro pr hpr
    rcases List.mem_cons.mp hpr with rfl | hm
    · cases hg : getCol df n with
      | none => rw [hg] at hh; cases hh
      | some c =>
        rw [hg] at hh
        simp only [Option.map_some', Option.some.injEq] at hh
        subst hh
        simpa using hg
    · exact ih _ hm

theorem mapOpt_get?_mem {A : Type} {l : List A} {idx : List Nat} {l' : List A}
    (h : mapOpt (fun i => l.get? i) idx = some l') : ∀ x ∈ l', x ∈ l := by
  have hf := mapOpt_forall2 _ idx l' h
  clear h
  induction hf with
  | nil => intro x hx; cases hx
  | cons hh _ ih =>
    intro x hx
    rcases List.mem_cons.mp hx with rfl | hm
    · exact List.get?_mem hh
    · exact ih _ hm

theorem selectFeatures_spec {scoreFn : List Col → Col → List ℚ} {s : SchemaConfig}
    {df : Df} {targetCol : String} {featureCols : List String} {k : Nat}
    {p : Df × List String}
    (h : selectFeatures scoreFn s df targetCol featureCols k = some p) :
    (∀ x ∈ p.2, x ∈ featureCols)
    ∧ cols p.1 = p.2 ++ [targetCol, s.timestamp_column]
    ∧ ∀ pr ∈ p.1, getCol df pr.1 = some pr.2 := by
  simp only [selectFeatures] at h
  split at h
  · cases h
  · split at h
    · obtain ⟨selected, hsel, h2⟩ := Option.bind_eq_some.mp h
      obtain ⟨dfSel, hre, hp⟩ := Option.map_eq_some'.mp h2
      subst hp
      exact ⟨mapOpt_get?_mem hsel, reindex_cols hre, reindex_mem hre⟩
    · cases h

/-! Claims C4, C9, C10: behaviour of the full `engineer_features`
pipeline. -/

/-- Claim C9: whenever `engineer_features` returns, the returned feature
name list is exactly the list of columns of the returned table with the
target and timestamp columns removed — the selected names when selection
ran, otherwise all candidates. -/
theorem C9_feature_list_matches_columns (ops : AbsOps)
    (scoreFn : List Col → Col → List ℚ) (cfg : DataConfig) (s : SchemaConfig)
    (df : Df) (includeSelection : Bool) (maxFeatures : Nat) (p : Df × List String)
    (h : engineerFeatures ops scoreFn cfg s df includeSelection maxFeatures = some p) :
    p.2 = featureColumnsOf s p.1 := by
  simp only [engineerFeatures] at h
  split at h
  · obtain ⟨hmem, hcols, _⟩ := selectFeatures_spec h
    unfold featureColumnsOf
    rw [hcols, List.filter_append]
    have h2 : List.filter (fun c => decide (c ≠ s.target_column ∧ c ≠ s.timestamp_column))
        [s.target_column, s.timestamp_column] = [] := by simp
    have h1 : List.filter (fun c => decide (c ≠ s.target_column ∧ c ≠ s.timestamp_column))
        p.2 = p.2 := by
      refine List.filter_eq_self.mpr ?_
      intro x hx
      exact (List.mem_filter.mp (hmem x hx)).2
    rw [h1, h2, List.append_nil]
  · cases h
    rfl

/-- Claim C10: whenever `engineer_features` returns, the returned table
contains no missing value in any cell: the cleaning step ends with a full
`dropna`, and selection only re-selects whole columns of the cleaned
frame. -/
theorem C10_output_has_no_missing_values (ops : AbsOps)
    (scoreFn : List Col → Col → List ℚ) (cfg : DataConfig) (s : SchemaConfig)
    (df : Df) (includeSelection : Bool) (maxFeatures : Nat) (p : Df × List String)
    (h : engineerFeatures ops scoreFn cfg s df includeSelection maxFeatures = some p) :
    noneFree p.1 := by
  simp only [engineerFeatures] at h
  split at h
  · obtain ⟨_, _, hget⟩ := selectFeatures_spec h
    intro pr hpr x hx
    exact cleanDf_noneFree (runGenerators ops cfg s (renameCols s.column_mapping df)) _
      (getCol_mem _ (hget pr hpr)) _ hx
  · cases h
    exact cleanDf_noneFree _

/-- Claim C4 (amended): when the cleaning step removes every row and the
candidate count does not trigger selection, `engineer_features` raises no
error at all: it returns the zero-row cleaned table together with the
candidate feature list. -/
theorem C4_empty_clean_returns_empty_table (ops : AbsOps)
    (scoreFn : List Col → Col → List ℚ) (cfg : DataConfig) (s : SchemaConfig)
    (df : Df) (maxFeatures : Nat)
    (h0 : nRows (cleanDf (runGenerators ops cfg s (renameCols s.column_mapping df))) = 0)
    (h1 : (featureColumnsOf s
        (cleanDf (runGenerators ops cfg s (renameCols s.column_mapping df)))).length
        ≤ maxFeatures) :
    engineerFeatures ops scoreFn cfg s df true maxFeatures
      = some (cleanDf (runGenerators ops cfg s (renameCols s.column_mapping df)),
          featureColumnsOf s (cleanDf (runGenerators ops cfg s (renameCols s.column_mapping df))))
      ∧ nRows (cleanDf (runGenerators ops cfg s (renameCols s.column_mapping df))) = 0 := by
  refine ⟨?_, h0⟩
  simp only [engineerFeatures]
  rw [if_neg]
  simp only [Bool.true_and, decide_eq_true_eq]
  omega

/-- Concrete instantiation of the abstract real functions; their values
are irrelevant to the concrete properties checked below. -/
def absOps0 : AbsOps :=
  { sqrt := fun _ => 0, hour := fun _ => 0, dayOfWeek := fun _ => 0,
    dayOfMonth := fun _ => 0, month := fun _ => 0, quarter := fun _ => 0,
    hourSin := fun _ => 0, hourCos := fun _ => 0, daySin := fun _ => 0,
    dayCos := fun _ => 0, monthSin := fun _ => 0, monthCos := fun _ => 0 }

/-- Concrete score function returning no scores (selection never runs in
the scenarios using it). -/
def scoreFn0 : List Col → Col → List ℚ := fun _ _ => []

/-- Concrete data configuration with the default 5-minute sampling
interval. -/
def cfg0 : DataConfig :=
  { start_date := 0, end_date := 1, min_samples := 1000, sampling_interval_minutes := 5 }

/-- Concrete schema declaring one continuous column. -/
def schema4 : SchemaConfig :=
  { continuous_columns := ["temperature"], boolean_columns := [], column_mapping := [],
    lag_seconds := [60], rolling_windows := [5],
    target_column := "failure_indicator", timestamp_column := "timestamp" }

/-- Concrete frame whose cells are all missing: the cleaning threshold
drops every row. -/
def dfAllNaN : Df := [("x", [none, none]), ("failure_indicator", [none, none])]

/-- Claim C4 is false on the code: on a frame whose cleaning removes all
rows, `engineer_features` raises no `InsufficientDataError` (none exists
in the code); it returns the zero-row table and the candidate list. -/
theorem C4_counterexample :
    engineerFeatures absOps0 scoreFn0 cfg0 schema4 dfAllNaN true 100
      = some ([("x", ([] : Col)), ("failure_indicator", ([] : Col))], ["x"]) := by
  rfl

/-- Witness for the amended claim C4 at the concrete all-missing frame. -/
theorem C4_empty_clean_returns_empty_table_witness :
    engineerFeatures absOps0 scoreFn0 cfg0 schema4 dfAllNaN true 100
      = some (cleanDf (runGenerators absOps0 cfg0 schema4
            (renameCols schema4.column_mapping dfAllNaN)),
          featureColumnsOf schema4 (cleanDf (runGenerators absOps0 cfg0 schema4
            (renameCols schema4.column_mapping dfAllNaN))))
      ∧ nRows (cleanDf (runGenerators absOps0 cfg0 schema4
          (renameCols schema4.column_mapping dfAllNaN))) = 0 :=
  C4_empty_clean_returns_empty_table absOps0 scoreFn0 cfg0 schema4 dfAllNaN 100
    (by rfl) (by decide)

/-- Concrete schema with no declared sensor columns, routing a run through
the selection branch. -/
def schema5 : SchemaConfig :=
  { continuous_columns := [], boolean_columns := [], column_mapping := [],
    lag_seconds := [], rolling_windows := [], target_column := "t",
    timestamp_column := "timestamp" }

/-- Concrete score function assigning score 1 to the first candidate and
2 to the second. -/
def scoreFn5 : List Col → Col → List ℚ := fun _ _ => [1, 2]

/-- Concrete fully-populated one-row frame. -/
def df5 : Df :=
  [("a", [some (.num 1)]), ("b", [some (.num 2)]),
   ("t", [some (.num 0)]), ("timestamp", [some (.num 0)])]

/-- Witness for claim C9 on a concrete run through the selection branch. -/
theorem C9_feature_list_matches_columns_witness :
    (["b"] : List String) = featureColumnsOf schema5
      [("b", [some (PVal.num 2)]), ("t", [some (PVal.num 0)]),
       ("timestamp", [some (PVal.num 0)])] :=
  C9_feature_list_matches_columns absOps0 scoreFn5 cfg0 schema5 df5 true 1
    ([("b", [some (PVal.num 2)]), ("t", [some (PVal.num 0)]),
      ("timestamp", [some (PVal.num 0)])], ["b"])
    (by rfl)

/-- Witness for claim C10 on a concrete run through the selection branch. -/
theorem C10_output_has_no_missing_values_witness :
    noneFree [("b", [some (PVal.num 2)]), ("t", [some (PVal.num 0)]),
      ("timestamp", [some (PVal.num 0)])] :=
  C10_output_has_no_missing_values absOps0 scoreFn5 cfg0 schema5 df5 true 1
    ([("b", [some (PVal.num 2)]), ("t", [some (PVal.num 0)]),
      ("timestamp", [some (PVal.num 0)])], ["b"])
    (by rfl)

/-! Claim C2: the lag generator. -/

/-- All lag feature names a schema generates, in generation order. -/
def allLagNames (s : SchemaConfig) : List String :=
  s.continuous_columns.flatMap
    (fun c => s.lag_seconds.map (fun l => lagColName (s.getMappedColumn c) l))

theorem getCol_some_mem_cols {df : Df} {n : String} {c : Col}
    (h : getCol df n = some c) : n ∈ cols df := by
  have hm := getCol_mem df h
  exact List.mem_map.mpr ⟨(n, c), hm, rfl⟩

theorem getCol_lagSetOne_ne {m x : String} (df : Df) (lp : Nat × Nat)
    (hx : x ≠ lagColName m lp.1) :
    getCol (lagSetOne m df lp) x = getCol df x := by
  unfold lagSetOne
  cases getCol df m with
  | none => rfl
  | some base => exact getCol_setCol_ne df hx _

theorem getCol_lagStep_ne {lags : List (Nat × Nat)} {m x : String} :
    ∀ {df : Df}, (∀ lp ∈ lags, x ≠ lagColName m lp.1) →
      getCol (lagStep lags m df) x = getCol df x := by
  induction lags with
  | nil => intro df _; rfl
  | cons lp t ih =>
    intro df hx
    show getCol (lagStep t m (lagSetOne m df lp)) x = _
    rw [ih (fun q hq => hx q (List.mem_cons_of_mem _ hq)),
      getCol_lagSetOne_ne df lp (hx lp (List.mem_cons_self _ _))]

theorem getCol_lagStep_self {m : String} :
    ∀ {lags : List (Nat × Nat)} {df : Df} {base : Col},
      getCol df m = some base →
      (∀ lp ∈ lags, m ≠ lagColName m lp.1) →
      (lags.map (fun lp => lagColName m lp.1)).Nodup →
      ∀ lp0 ∈ lags,
        getCol (lagStep lags m df) (lagColName m lp0.1) = some (shiftCol lp0.2 base) := by
  intro lags
  induction lags with
  | nil => intro df base _ _ _ lp0 h0; cases h0
  | cons lp t ih =>
    intro df base hm hmne hnd lp0 h0
    show getCol (lagStep t m (lagSetOne m df lp)) (lagColName m lp0.1) = _
    have hndt : (t.map (fun lp => lagColName m lp.1)).Nodup :=
      (List.nodup_cons.mp hnd).2
    rcases List.mem_cons.mp h0 with rfl | hmem
    · have hset : getCol (lagSetOne m df lp0) (lagColName m lp0.1)
          = some (shiftCol lp0.2 base) := by
        unfold lagSetOne
        rw [hm]
        exact getCol_setCol_self _ _ _
      have hnot : ∀ q ∈ t, lagColName m lp0.1 ≠ lagColName m q.1 := by
        intro q hq he
        have hq' : lagColName m q.1 ∈ t.map (fun lp => lagColName m lp.1) :=
          List.mem_map.mpr ⟨q, hq, rfl⟩
        rw [← he] at hq'
        exact (List.nodup_cons.mp hnd).1 hq'
      rw [getCol_lagStep_ne hnot, hset]
    · have hm' : getCol (lagSetOne m df lp) m = some base := by
        rw [getCol_lagSetOne_ne df lp (hmne lp (List.mem_cons_self _ _))]
        exact hm
      exact ih hm' (fun q hq => hmne q (List.mem_cons_of_mem _ hq)) hndt lp0 hmem

theorem getCol_lagForCol_ne {s : SchemaConfig} {pairs : List (Nat × Nat)} {d : Df}
    {col x : String}
    (hx : ∀ lp ∈ pairs, x ≠ lagColName (s.getMappedColumn col) lp.1) :
    getCol (lagForCol s pairs d col) x = getCol d x := by
  simp only [lagForCol]
  split
  · exact getCol_lagStep_ne hx
  · rfl

theorem getCol_lagFold_ne {s : SchemaConfig} {pairs : List (Nat × Nat)} {x : String} :
    ∀ (cs : List String) (df : Df),
      (∀ c ∈ cs, ∀ lp ∈ pairs, x ≠ lagColName (s.getMappedColumn c) lp.1) →
      getCol (cs.foldl (lagForCol s pairs) df) x = getCol df x := by
  intro cs
  induction cs with
  | nil => intro df _; rfl
  | cons c t ih =>
    intro df hx
    show getCol (t.foldl (lagForCol s pairs) (lagForCol s pairs df c)) x = _
    rw [ih (lagForCol s pairs df c) (fun c' hc' => hx c' (List.mem_cons_of_mem _ hc')),
      getCol_lagForCol_ne (hx c (List.mem_cons_self _ _))]

theorem getCol_lagFold_self {s : SchemaConfig} {pairs : List (Nat × Nat)} :
    ∀ (cs : List String) (df : Df) (col : String) (base : Col),
      col ∈ cs →
      getCol df (s.getMappedColumn col) = some base →
      (cs.flatMap (fun c => pairs.map (fun lp => lagColName (s.getMappedColumn c) lp.1))).Nodup →
      (∀ c ∈ cs, ∀ lp ∈ pairs,
        s.getMappedColumn col ≠ lagColName (s.getMappedColumn c) lp.1) →
      ∀ lp0 ∈ pairs,
        getCol (cs.foldl (lagForCol s pairs) df) (lagColName (s.getMappedColumn col) lp0.1)
          = some (shiftCol lp0.2 base) := by
  intro cs
  induction cs with
  | nil => intro df col base hcol; cases hcol
  | cons c t ih =>
    intro df col base hcol hm hnd hpres lp0 h0
    rw [List.flatMap_cons] at hnd
    have hdisj := List.disjoint_of_nodup_append hnd
    show getCol (t.foldl (lagForCol s pairs) (lagForCol s pairs df c))
      (lagColName (s.getMappedColumn col) lp0.1) = _
    rcases List.mem_cons.mp hcol with rfl | hmem
    · -- the column is processed first; its lag columns survive the rest of the fold
      have hhas : hasCol df (s.getMappedColumn col) = true :=
        hasCol_iff.mpr (getCol_some_mem_cols hm)
      have hstep : getCol (lagForCol s pairs df col)
          (lagColName (s.getMappedColumn col) lp0.1) = some (shiftCol lp0.2 base) := by
        unfold lagForCol
        rw [if_pos hhas]
        exact getCol_lagStep_self hm
          (fun lp hlp => hpres col (List.mem_cons_self _ _) lp hlp)
          (hnd.of_append_left) lp0 h0
      have hnot : ∀ c' ∈ t, ∀ lp ∈ pairs,
          lagColName (s.getMappedColumn col) lp0.1
            ≠ lagColName (s.getMappedColumn c') lp.1 := by
        intro c' hc' lp hlp he
        refine hdisj (List.mem_map.mpr ⟨lp0, h0, rfl⟩) ?_
        rw [he]
        exact List.mem_flatMap.mpr ⟨c', hc', List.mem_map.mpr ⟨lp, hlp, rfl⟩⟩
      rw [getCol_lagFold_ne t _ hnot, hstep]
    · -- the column sits further along the list; this step leaves it intact
      have hm' : getCol (lagForCol s pairs df c) (s.getMappedColumn col) = some base := by
        rw [getCol_lagForCol_ne (fun lp hlp => hpres c (List.mem_cons_self _ _) lp hlp)]
        exact hm
      exact ih _ col base hmem hm' hnd.of_append_right
        (fun c' hc' => hpres c' (List.mem_cons_of_mem _ hc')) lp0 h0

theorem getD_map_range {α : Type} (f : Nat → α) {n i : Nat} (h : i < n) (d : α) :
    ((List.range n).map f).getD i d = f i := by
  rw [List.getD_eq_getElem?_getD, List.getElem?_map, List.getElem?_range h]
  rfl

theorem shiftCol_getD (p : Nat) (c : Col) {i : Nat} (h : i < c.length) :
    (shiftCol p c).getD i none = if i < p then none else c.getD (i - p) none := by
  unfold shiftCol
  rw [getD_map_range _ h]

/-- Claim C2: for every continuous column present in the table and every
configured lag value, the lag generator derives the period
`max 1 (lagSec / sampling_interval_seconds)` and stores, under the name
keyed by the original lag seconds, the base column shifted by that
period: missing for the first `period` rows, the base value at `i - period`
afterwards.  The naming hypotheses rule out the configuration error of
colliding generated names. -/
theorem C2_lag_features (cfg : DataConfig) (s : SchemaConfig) (df : Df)
    (col : String) (lagSec : Nat) (base : Col)
    (hcol : col ∈ s.continuous_columns)
    (hlag : lagSec ∈ s.lag_seconds)
    (hbase : getCol df (s.getMappedColumn col) = some base)
    (_hsamp : 0 < cfg.sampling_interval_minutes)
    (hnd : (allLagNames s).Nodup)
    (hpres : ∀ c ∈ s.continuous_columns, ∀ l ∈ s.lag_seconds,
        s.getMappedColumn col ≠ lagColName (s.getMappedColumn c) l) :
    getCol (createLagFeatures cfg s df) (lagColName (s.getMappedColumn col) lagSec)
      = some (shiftCol (max 1 (lagSec / (cfg.sampling_interval_minutes * 60))) base)
    ∧ (shiftCol (max 1 (lagSec / (cfg.sampling_interval_minutes * 60))) base).length
      = base.length
    ∧ ∀ i < base.length,
        (shiftCol (max 1 (lagSec / (cfg.sampling_interval_minutes * 60))) base).getD i none
          = if i < max 1 (lagSec / (cfg.sampling_interval_minutes * 60)) then none
            else base.getD (i - max 1 (lagSec / (cfg.sampling_interval_minutes * 60))) none := by
  have hzip : s.lag_seconds.zip
      (s.lag_seconds.map (fun l => max 1 (l / (cfg.sampling_interval_minutes * 60))))
      = s.lag_seconds.map (fun l => (l, max 1 (l / (cfg.sampling_interval_minutes * 60)))) := by
    have := List.zip_map' id (fun l => max 1 (l / (cfg.sampling_interval_minutes * 60)))
      s.lag_seconds
    simpa using this
  refine ⟨?_, by simp [shiftCol], fun i hi => shiftCol_getD _ _ hi⟩
  simp only [createLagFeatures]
  rw [hzip]
  have hfst : ∀ lp ∈ s.lag_seconds.map
      (fun l => (l, max 1 (l / (cfg.sampling_interval_minutes * 60)))), lp.1 ∈ s.lag_seconds := by
    intro lp hlp
    obtain ⟨l, hl, rfl⟩ := List.mem_map.mp hlp
    exact hl
  have hnd' : (s.continuous_columns.flatMap (fun c =>
      (s.lag_seconds.map (fun l => (l, max 1 (l / (cfg.sampling_interval_minutes * 60))))).map
        (fun lp => lagColName (s.getMappedColumn c) lp.1))).Nodup := by
    have hrw : ∀ c : String,
        (s.lag_seconds.map (fun l => (l, max 1 (l / (cfg.sampling_interval_minutes * 60))))).map
          (fun lp => lagColName (s.getMappedColumn c) lp.1)
        = s.lag_seconds.map (fun l => lagColName (s.getMappedColumn c) l) := by
      intro c
      rw [List.map_map]
      rfl
    have hcong : (s.continuous_columns.flatMap (fun c =>
        (s.lag_seconds.map (fun l => (l, max 1 (l / (cfg.sampling_interval_minutes * 60))))).map
          (fun lp => lagColName (s.getMappedColumn c) lp.1)))
        = allLagNames s := by
      unfold allLagNames
      exact List.flatMap_congr (fun c _ => hrw c)
    rw [hcong]
    exact hnd
  have := getCol_lagFold_self s.continuous_columns df col base hcol hbase hnd'
    (fun c hc lp hlp => hpres c hc lp.1 (hfst lp hlp))
    (lagSec, max 1 (lagSec / (cfg.sampling_interval_minutes * 60)))
    (List.mem_map.mpr ⟨lagSec, hlag, rfl⟩)
  exact this

/-- Concrete three-row frame with a single continuous column. -/
def dfLag : Df :=
  [("temperature", [some (.num 1), some (.num 2), some (.num 3)]),
   ("failure_indicator", [some (.num 0), some (.num 0), some (.num 1)])]

/-- Concrete schema with a single 300-second lag. -/
def schemaLag : SchemaConfig :=
  { continuous_columns := ["temperature"], boolean_columns := [], column_mapping := [],
    lag_seconds := [300], rolling_windows := [5],
    target_column := "failure_indicator", timestamp_column := "timestamp" }

/-- Witness for claim C2: a 300-second lag at a 5-minute sampling interval
is one period, and the generated column is the base column shifted by one
row. -/
theorem C2_lag_features_witness :
    getCol (createLagFeatures cfg0 schemaLag dfLag) (lagColName "temperature" 300)
      = some (shiftCol 1 [some (.num 1), some (.num 2), some (.num 3)]) :=
  (C2_lag_features cfg0 schemaLag dfLag "temperature" 300
    [some (.num 1), some (.num 2), some (.num 3)]
    (by decide) (by decide) (by rfl) (by decide) (by decide) (by decide)).1

/-! Claim C5: the rolling generator and its standard-deviation column. -/

/-- The five rolling feature names for one mapped column and window. -/
def rollingNamesFor (m : String) (w : Nat) : List String :=
  [rollingColName m "mean" w, rollingColName m "std" w, rollingColName m "min" w,
   rollingColName m "max" w, rollingColName m "median" w]

/-- All rolling feature names a schema generates, in generation order. -/
def allRollingNames (s : SchemaConfig) : List String :=
  s.continuous_columns.flatMap (fun c =>
    s.rolling_windows.flatMap (fun w => rollingNamesFor (s.getMappedColumn c) w))

theorem getCol_rollingSetWin_ne {sq : ℚ → ℚ} {m x : String} (d : Df) (w : Nat)
    (hx : x ∉ rollingNamesFor m w) :
    getCol (rollingSetWin sq m d w) x = getCol d x := by
  simp only [rollingNamesFor, List.mem_cons, not_or] at hx
  obtain ⟨h1, h2, h3, h4, h5, _⟩ := hx
  simp only [rollingSetWin]
  rw [getCol_setCol_ne _ h5, getCol_setCol_ne _ h4, getCol_setCol_ne _ h3,
    getCol_setCol_ne _ h2, getCol_setCol_ne _ h1]

theorem getCol_rollingStep_ne {sq : ℚ → ℚ} {windows : List Nat} {m x : String} :
    ∀ {df : Df}, (∀ w ∈ windows, x ∉ rollingNamesFor m w) →
      getCol (rollingStep sq windows m df) x = getCol df x := by
  induction windows with
  | nil => intro df _; rfl
  | cons w t ih =>
    intro df hx
    show getCol (rollingStep sq t m (rollingSetWin sq m df w)) x = _
    rw [ih (fun w' hw' => hx w' (List.mem_cons_of_mem _ hw')),
      getCol_rollingSetWin_ne _ _ (hx w (List.mem_cons_self _ _))]

theorem getCol_rollingSetWin_self (sq : ℚ → ℚ) {m : String} {d : Df} {base : Col} {w : Nat}
    (hm : getCol d m = some base)
    (hmn : m ∉ rollingNamesFor m w)
    (hnd : (rollingNamesFor m w).Nodup) :
    getCol (rollingSetWin sq m d w) (rollingColName m "mean" w) = some (rollingMean w base)
    ∧ getCol (rollingSetWin sq m d w) (rollingColName m "std" w) = some (rollingStd sq w base)
    ∧ getCol (rollingSetWin sq m d w) (rollingColName m "min" w) = some (rollingMin w base)
    ∧ getCol (rollingSetWin sq m d w) (rollingColName m "max" w) = some (rollingMax w base)
    ∧ getCol (rollingSetWin sq m d w) (rollingColName m "median" w)
        = some (rollingMedian w base) := by
  simp only [rollingNamesFor, List.mem_cons, not_or, List.not_mem_nil, not_false_eq_true,
    and_true] at hmn
  obtain ⟨hm1, hm2, hm3, hm4, hm5⟩ := hmn
  simp only [rollingNamesFor, List.nodup_cons, List.mem_cons, not_or, List.mem_singleton,
    List.not_mem_nil, not_false_eq_true, and_true, List.nodup_nil] at hnd
  obtain ⟨⟨h12, h13, h14, h15⟩, ⟨h23, h24, h25⟩, ⟨h34, h35⟩, h45⟩ := hnd
  simp only [rollingSetWin]
  have hb1 : getCol (setCol d (rollingColName m "mean" w) (rollingMean w base)) m
      = some base := by rw [getCol_setCol_ne _ hm1]; exact hm
  have hb2 : getCol (setCol (setCol d (rollingColName m "mean" w) (rollingMean w base))
      (rollingColName m "std" w) (rollingStd sq w base)) m = some base := by
    rw [getCol_setCol_ne _ hm2]; exact hb1
  have hb3 : getCol (setCol (setCol (setCol d (rollingColName m "mean" w) (rollingMean w base))
      (rollingColName m "std" w) (rollingStd sq w base))
      (rollingColName m "min" w) (rollingMin w base)) m = some base := by
    rw [getCol_setCol_ne _ hm3]; exact hb2
  have hb4 : getCol (setCol (setCol (setCol (setCol d
      (rollingColName m "mean" w) (rollingMean w base))
      (rollingColName m "std" w) (rollingStd sq w base))
      (rollingColName m "min" w) (rollingMin w base))
      (rollingColName m "max" w) (rollingMax w base)) m = some base := by
    rw [getCol_setCol_ne _ hm4]; exact hb3
  rw [hm]
  simp only [Option.getD_some]
  rw [hb1]
  simp only [Option.getD_some]
  rw [hb2]
  simp only [Option.getD_some]
  rw [hb3]
  simp only [Option.getD_some]
  rw [hb4]
  simp only [Option.getD_some]
  refine ⟨?_, ?_, ?_, ?_, ?_⟩
  · rw [getCol_setCol_ne _ h15, getCol_setCol_ne _ h14,
      getCol_setCol_ne _ h13, getCol_setCol_ne _ h12]
    exact getCol_setCol_self _ _ _
  · rw [getCol_setCol_ne _ h25, getCol_setCol_ne _ h24, getCol_setCol_ne _ h23]
    exact getCol_setCol_self _ _ _
  · rw [getCol_setCol_ne _ h35, getCol_setCol_ne _ h34]
    exact getCol_setCol_self _ _ _
  · rw [getCol_setCol_ne _ h45]
    exact getCol_setCol_self _ _ _
  · exact getCol_setCol_self _ _ _

theorem getCol_rollingStep_self (sq : ℚ → ℚ) {m : String} :
    ∀ {windows : List Nat} {df : Df} {base : Col},
      getCol df m = some base →
      (∀ w ∈ windows, m ∉ rollingNamesFor m w) →
      (windows.flatMap (fun w => rollingNamesFor m w)).Nodup →
      ∀ w0 ∈ windows,
        getCol (rollingStep sq windows m df) (rollingColName m "mean" w0)
          = some (rollingMean w0 base)
        ∧ getCol (rollingStep sq windows m df) (rollingColName m "std" w0)
          = some (rollingStd sq w0 base)
        ∧ getCol (rollingStep sq windows m df) (rollingColName m "min" w0)
          = some (rollingMin w0 base)
        ∧ getCol (rollingStep sq windows m df) (rollingColName m "max" w0)
          = some (rollingMax w0 base) := by
  intro windows
  induction windows with
  | nil => intro df base _ _ _ w0 h0; cases h0
  | cons w t ih =>
    intro df base hm hmn hnd w0 h0
    rw [List.flatMap_cons] at hnd
    have hdisj := List.disjoint_of_nodup_append hnd
    rw [show rollingStep sq (w :: t) m df = rollingStep sq t m (rollingSetWin sq m df w)
      from rfl]
    rcases List.mem_cons.mp h0 with rfl | hmem
    · have hset := getCol_rollingSetWin_self sq hm
        (hmn w0 (List.mem_cons_self _ _)) hnd.of_append_left
      have hnot : ∀ x ∈ rollingNamesFor m w0, ∀ w' ∈ t, x ∉ rollingNamesFor m w' := by
        intro x hx w' hw' hx'
        exact hdisj hx (List.mem_flatMap.mpr ⟨w', hw', hx'⟩)
      have hmean : rollingColName m "mean" w0 ∈ rollingNamesFor m w0 := by
        simp [rollingNamesFor]
      have hstd : rollingColName m "std" w0 ∈ rollingNamesFor m w0 := by
        simp [rollingNamesFor]
      have hmin : rollingColName m "min" w0 ∈ rollingNamesFor m w0 := by
        simp [rollingNamesFor]
      have hmax : rollingColName m "max" w0 ∈ rollingNamesFor m w0 := by
        simp [rollingNamesFor]
      refine ⟨?_, ?_, ?_, ?_⟩
      · rw [getCol_rollingStep_ne (fun w' hw' => hnot _ hmean w' hw')]
        exact hset.1
      · rw [getCol_rollingStep_ne (fun w' hw' => hnot _ hstd w' hw')]
        exact hset.2.1
      · rw [getCol_rollingStep_ne (fun w' hw' => hnot _ hmin w' hw')]
        exact hset.2.2.1
      · rw [getCol_rollingStep_ne (fun w' hw' => hnot _ hmax w' hw')]
        exact hset.2.2.2.1
    · have hm' : getCol (rollingSetWin sq m df w) m = some base := by
        rw [getCol_rollingSetWin_ne _ _ (hmn w (List.mem_cons_self _ _))]
        exact hm
      exact ih hm' (fun w' hw' => hmn w' (List.mem_cons_of_mem _ hw'))
        hnd.of_append_right w0 hmem

theorem getCol_rollingForCol_ne {sq : ℚ → ℚ} {s : SchemaConfig} {d : Df} {col x : String}
    (hx : ∀ w ∈ s.rolling_windows, x ∉ rollingNamesFor (s.getMappedColumn col) w) :
    getCol (rollingForCol sq s d col) x = getCol d x := by
  simp only [rollingForCol]
  split
  · exact getCol_rollingStep_ne hx
  · rfl

theorem getCol_rollingFold_ne {sq : ℚ → ℚ} {s : SchemaConfig} {x : String} :
    ∀ (cs : List String) (df : Df),
      (∀ c ∈ cs, ∀ w ∈ s.rolling_windows, x ∉ rollingNamesFor (s.getMappedColumn c) w) →
      getCol (cs.foldl (rollingForCol sq s) df) x = getCol df x := by
  intro cs
  induction cs with
  | nil => intro df _; rfl
  | cons c t ih =>
    intro df hx
    show getCol (t.foldl (rollingForCol sq s) (rollingForCol sq s df c)) x = _
    rw [ih (rollingForCol sq s df c) (fun c' hc' => hx c' (List.mem_cons_of_mem _ hc')),
      getCol_rollingForCol_ne (hx c (List.mem_cons_self _ _))]

theorem getCol_rollingFold_self (sq : ℚ → ℚ) {s : SchemaConfig} :
    ∀ (cs : List String) (df : Df) (col : String) (base : Col),
      col ∈ cs →
      getCol df (s.getMappedColumn col) = some base →
      (cs.flatMap (fun c => s.rolling_windows.flatMap
        (fun w => rollingNamesFor (s.getMappedColumn c) w))).Nodup →
      (∀ c ∈ cs, ∀ w ∈ s.rolling_windows,
        s.getMappedColumn col ∉ rollingNamesFor (s.getMappedColumn c) w) →
      ∀ w0 ∈ s.rolling_windows,
        getCol (cs.foldl (rollingForCol sq s) df)
            (rollingColName (s.getMappedColumn col) "mean" w0) = some (rollingMean w0 base)
        ∧ getCol (cs.foldl (rollingForCol sq s) df)
            (rollingColName (s.getMappedColumn col) "std" w0) = some (rollingStd sq w0 base)
        ∧ getCol (cs.foldl (rollingForCol sq s) df)
            (rollingColName (s.getMappedColumn col) "min" w0) = some (rollingMin w0 base)
        ∧ getCol (cs.foldl (rollingForCol sq s) df)
            (rollingColName (s.getMappedColumn col) "max" w0) = some (rollingMax w0 base) := by
  intro cs
  induction cs with
  | nil => intro df col base hcol; cases hcol
  | cons c t ih =>
    intro df col base hcol hm hnd hpres w0 h0
    rw [List.flatMap_cons] at hnd
    have hdisj := List.disjoint_of_nodup_append hnd
    rw [show (c :: t).foldl (rollingForCol sq s) df
      = t.foldl (rollingForCol sq s) (rollingForCol sq s df c) from rfl]
    rcases List.mem_cons.mp hcol with rfl | hmem
    · have hhas : hasCol df (s.getMappedColumn col) = true :=
        hasCol_iff.mpr (getCol_some_mem_cols hm)
      have hstep := getCol_rollingStep_self sq hm
        (fun w' hw' => hpres col (List.mem_cons_self _ _) w' hw')
        (hnd.of_append_left.sublist (by exact List.Sublist.refl _)) w0 h0
      have hstepcol : rollingForCol sq s df col = rollingStep sq s.rolling_windows
          (s.getMappedColumn col) df := by
        simp only [rollingForCol]
        rw [if_pos hhas]
      have hnot : ∀ x, x ∈ rollingNamesFor (s.getMappedColumn col) w0 →
          ∀ c' ∈ t, ∀ w' ∈ s.rolling_windows,
            x ∉ rollingNamesFor (s.getMappedColumn c') w' := by
        intro x hx c' hc' w' hw' hx'
        refine hdisj ?_ (List.mem_flatMap.mpr ⟨c', hc', List.mem_flatMap.mpr ⟨w', hw', hx'⟩⟩)
        exact List.mem_flatMap.mpr ⟨w0, h0, hx⟩
      have hmean : rollingColName (s.getMappedColumn col) "mean" w0
          ∈ rollingNamesFor (s.getMappedColumn col) w0 := by simp [rollingNamesFor]
      have hstd : rollingColName (s.getMappedColumn col) "std" w0
          ∈ rollingNamesFor (s.getMappedColumn col) w0 := by simp [rollingNamesFor]
      have hmin : rollingColName (s.getMappedColumn col) "min" w0
          ∈ rollingNamesFor (s.getMappedColumn col) w0 := by simp [rollingNamesFor]
      have hmax : rollingColName (s.getMappedColumn col) "max" w0
          ∈ rollingNamesFor (s.getMappedColumn col) w0 := by simp [rollingNamesFor]
      refine ⟨?_, ?_, ?_, ?_⟩
      · rw [getCol_rollingFold_ne t _ (fun c' hc' w' hw' => hnot _ hmean c' hc' w' hw'),
          hstepcol]
        exact hstep.1
      · rw [getCol_rollingFold_ne t _ (fun c' hc' w' hw' => hnot _ hstd c' hc' w' hw'),
          hstepcol]
        exact hstep.2.1
      · rw [getCol_rollingFold_ne t _ (fun c' hc' w' hw' => hnot _ hmin c' hc' w' hw'),
          hstepcol]
        exact hstep.2.2.1
      · rw [getCol_rollingFold_ne t _ (fun c' hc' w' hw' => hnot _ hmax c' hc' w' hw'),
          hstepcol]
        exact hstep.2.2.2
    · have hm' : getCol (rollingForCol sq s df c) (s.getMappedColumn col) = some base := by
        rw [getCol_rollingForCol_ne (fun w' hw' => hpres c (List.mem_cons_self _ _) w' hw')]
        exact hm
      exact ih _ col base hmem hm' hnd.of_append_right
        (fun c' hc' => hpres c' (List.mem_cons_of_mem _ hc')) w0 h0

theorem rollingApply_getD {w : Nat} {f : List Cell → Cell} {c : Col} {i : Nat}
    (h : i < c.length) :
    (rollingApply w f c).getD i none = f (windowAt w c i) := by
  unfold rollingApply
  rw [getD_map_range _ h]

theorem stdCells_of_few {sq : ℚ → ℚ} {xs : List Cell}
    (h : (valids xs).length < 2) : stdCells sq xs = none := by
  unfold stdCells
  rw [if_pos h]

theorem windowAt_zero {w : Nat} (hw : 1 ≤ w) {x : Cell} {rest : Col} :
    windowAt w (x :: rest) 0 = [x] := by
  unfold windowAt
  have h1 : 1 - w = 0 := by omega
  simp [h1]

theorem meanCells_single_isSome (v : PVal) : (meanCells [some v]).isSome = true := by
  cases v <;> simp [meanCells, valids, sumP, cadd, cdiv, PVal.add, PVal.div,
    show ¬(1 : ℚ) < 0 by norm_num]

theorem minCells_single (v : PVal) : minCells [some v] = some v := rfl

theorem maxCells_single (v : PVal) : maxCells [some v] = some v := rfl

/-- Claim C5: the rolling standard-deviation column holds NaN at every
row whose trailing window has fewer than two valid samples — in
particular at the first row of the series — while the rolling mean,
min and max are defined at the first row from its single-sample window.
The naming hypotheses rule out colliding generated names. -/
theorem C5_rolling_std_missing (ops : AbsOps) (s : SchemaConfig) (df : Df)
    (col : String) (w : Nat) (base : Col)
    (hcol : col ∈ s.continuous_columns)
    (hw : w ∈ s.rolling_windows)
    (hwpos : 1 ≤ w)
    (hbase : getCol df (s.getMappedColumn col) = some base)
    (hnd : (allRollingNames s).Nodup)
    (hpres : ∀ c ∈ s.continuous_columns, ∀ w' ∈ s.rolling_windows,
        s.getMappedColumn col ∉ rollingNamesFor (s.getMappedColumn c) w') :
    getCol (createRollingFeatures ops s df)
        (rollingColName (s.getMappedColumn col) "std" w) = some (rollingStd ops.sqrt w base)
    ∧ getCol (createRollingFeatures ops s df)
        (rollingColName (s.getMappedColumn col) "mean" w) = some (rollingMean w base)
    ∧ getCol (createRollingFeatures ops s df)
        (rollingColName (s.getMappedColumn col) "min" w) = some (rollingMin w base)
    ∧ getCol (createRollingFeatures ops s df)
        (rollingColName (s.getMappedColumn col) "max" w) = some (rollingMax w base)
    ∧ (∀ i < base.length, (valids (windowAt w base i)).length < 2 →
        (rollingStd ops.sqrt w base).getD i none = none)
    ∧ (0 < base.length → (base.getD 0 none).isSome = true →
        (rollingStd ops.sqrt w base).getD 0 none = none
        ∧ ((rollingMean w base).getD 0 none).isSome = true
        ∧ ((rollingMin w base).getD 0 none).isSome = true
        ∧ ((rollingMax w base).getD 0 none).isSome = true) := by
  have hfold := getCol_rollingFold_self ops.sqrt s.continuous_columns df col base
    hcol hbase hnd hpres w hw
  have hE : ∀ i < base.length, (valids (windowAt w base i)).length < 2 →
      (rollingStd ops.sqrt w base).getD i none = none := by
    intro i hi hfew
    unfold rollingStd
    rw [rollingApply_getD hi, stdCells_of_few hfew]
  refine ⟨hfold.2.1, hfold.1, hfold.2.2.1, hfold.2.2.2, hE, ?_⟩
  intro hlen hv
  cases base with
  | nil => simp at hlen
  | cons x rest =>
    have hx : ∃ v, x = some v := by
      cases x with
      | none => simp [List.getD_cons_zero] at hv
      | some v => exact ⟨v, rfl⟩
    obtain ⟨v, rfl⟩ := hx
    have hwin : windowAt w (some v :: rest) 0 = [some v] := windowAt_zero hwpos
    refine ⟨?_, ?_, ?_, ?_⟩
    · refine hE 0 hlen ?_
      rw [hwin, show valids [some v] = [v] from rfl]
      simp
    · unfold rollingMean
      rw [rollingApply_getD hlen, hwin]
      exact meanCells_single_isSome v
    · unfold rollingMin
      rw [rollingApply_getD hlen, hwin, minCells_single]
      rfl
    · unfold rollingMax
      rw [rollingApply_getD hlen, hwin, maxCells_single]
      rfl

/-- Witness for claim C5 on the concrete three-row frame: the rolling
standard deviation is missing at the first row while the rolling mean is
present there. -/
theorem C5_rolling_std_missing_witness :
    getCol (createRollingFeatures absOps0 schema4 dfLag) (rollingColName "temperature" "std" 5)
      = some (rollingStd absOps0.sqrt 5 [some (.num 1), some (.num 2), some (.num 3)])
    ∧ (rollingStd absOps0.sqrt 5 [some (.num 1), some (.num 2), some (.num 3)]).getD 0 none
      = none
    ∧ ((rollingMean 5 [some (.num 1), some (.num 2), some (.num 3)]).getD 0 none).isSome
      = true := by
  have h := C5_rolling_std_missing absOps0 schema4 dfLag "temperature" 5
    [some (.num 1), some (.num 2), some (.num 3)]
    (by decide) (by decide) (by decide) (by rfl) (by decide) (by decide)
  exact ⟨h.1, (h.2.2.2.2.2 (by decide) (by decide)).1,
    (h.2.2.2.2.2 (by decide) (by decide)).2.1⟩

/-! Claim C6: the rate-of-change generator. -/

/-- The three rate-of-change feature names for one mapped column. -/
def rocNamesFor (m : String) : List String :=
  [m ++ "_roc", m ++ "_acceleration", m ++ "_pct_change"]

/-- All rate-of-change feature names a schema generates. -/
def allRocNames (s : SchemaConfig) : List String :=
  s.continuous_columns.flatMap (fun c => rocNamesFor (s.getMappedColumn c))

theorem getCol_rocStep_ne {m x : String} (df : Df) (hx : x ∉ rocNamesFor m) :
    getCol (rocStep m df) x = getCol df x := by
  simp only [rocNamesFor, List.mem_cons, not_or, List.not_mem_nil, not_false_eq_true,
    and_true] at hx
  obtain ⟨h1, h2, h3⟩ := hx
  simp only [rocStep]
  rw [getCol_setCol_ne _ h3, getCol_setCol_ne _ h2, getCol_setCol_ne _ h1]

theorem getCol_rocStep_self {m : String} {df : Df} {base : Col}
    (hm : getCol df m = some base)
    (hmn : m ∉ rocNamesFor m) (hnd : (rocNamesFor m).Nodup) :
    getCol (rocStep m df) (m ++ "_roc") = some (diffCol base)
    ∧ getCol (rocStep m df) (m ++ "_acceleration") = some (diffCol (diffCol base))
    ∧ getCol (rocStep m df) (m ++ "_pct_change") = some (pctCol base) := by
  simp only [rocNamesFor, List.mem_cons, not_or, List.not_mem_nil, not_false_eq_true,
    and_true] at hmn
  obtain ⟨hm1, hm2, hm3⟩ := hmn
  simp only [rocNamesFor, List.nodup_cons, List.mem_cons, not_or, List.mem_singleton,
    List.not_mem_nil, not_false_eq_true, and_true, List.nodup_nil] at hnd
  obtain ⟨⟨h12, h13⟩, h23⟩ := hnd
  simp only [rocStep]
  rw [hm]
  simp only [Option.getD_some]
  rw [getCol_setCol_self]
  simp only [Option.getD_some]
  have hb2 : getCol (setCol (setCol df (m ++ "_roc") (diffCol base))
      (m ++ "_acceleration") (diffCol (diffCol base))) m = some base := by
    rw [getCol_setCol_ne _ hm2, getCol_setCol_ne _ hm1]
    exact hm
  rw [hb2]
  simp only [Option.getD_some]
  refine ⟨?_, ?_, ?_⟩
  · rw [getCol_setCol_ne _ h13, getCol_setCol_ne _ h12]
    exact getCol_setCol_self _ _ _
  · rw [getCol_setCol_ne _ h23]
    exact getCol_setCol_self _ _ _
  · exact getCol_setCol_self _ _ _

theorem getCol_rocForCol_ne {s : SchemaConfig} {d : Df} {col x : String}
    (hx : x ∉ rocNamesFor (s.getMappedColumn col)) :
    getCol (rocForCol s d col) x = getCol d x := by
  simp only [rocForCol]
  split
  · exact getCol_rocStep_ne _ hx
  · rfl

theorem getCol_rocFold_ne {s : SchemaConfig} {x : String} :
    ∀ (cs : List String) (df : Df),
      (∀ c ∈ cs, x ∉ rocNamesFor (s.getMappedColumn c)) →
      getCol (cs.foldl (rocForCol s) df) x = getCol df x := by
  intro cs
  induction cs with
  | nil => intro df _; rfl
  | cons c t ih =>
    intro df hx
    show getCol (t.foldl (rocForCol s) (rocForCol s df c)) x = _
    rw [ih (rocForCol s df c) (fun c' hc' => hx c' (List.mem_cons_of_mem _ hc')),
      getCol_rocForCol_ne (hx c (List.mem_cons_self _ _))]

theorem getCol_rocFold_self {s : SchemaConfig} :
    ∀ (cs : List String) (df : Df) (col : String) (base : Col),
      col ∈ cs →
      getCol df (s.getMappedColumn col) = some base →
      (cs.flatMap (fun c => rocNamesFor (s.getMappedColumn c))).Nodup →
      (∀ c ∈ cs, s.getMappedColumn col ∉ rocNamesFor (s.getMappedColumn c)) →
      getCol (cs.foldl (rocForCol s) df) (s.getMappedColumn col ++ "_roc")
        = some (diffCol base)
      ∧ getCol (cs.foldl (rocForCol s) df) (s.getMappedColumn col ++ "_acceleration")
        = some (diffCol (diffCol base))
      ∧ getCol (cs.foldl (rocForCol s) df) (s.getMappedColumn col ++ "_pct_change")
        = some (pctCol base) := by
  intro cs
  induction cs with
  | nil => intro df col base hcol; cases hcol
  | cons c t ih =>
    intro df col base hcol hm hnd hpres
    rw [List.flatMap_cons] at hnd
    have hdisj := List.disjoint_of_nodup_append hnd
    rw [show (c :: t).foldl (rocForCol s) df = t.foldl (rocForCol s) (rocForCol s df c)
      from rfl]
    rcases List.mem_cons.mp hcol with rfl | hmem
    · have hhas : hasCol df (s.getMappedColumn col) = true :=
        hasCol_iff.mpr (getCol_some_mem_cols hm)
      have hstep := getCol_rocStep_self hm (hpres col (List.mem_cons_self _ _))
        hnd.of_append_left
      have hstepcol : rocForCol s df col = rocStep (s.getMappedColumn col) df := by
        simp only [rocForCol]
        rw [if_pos hhas]
      have hnot : ∀ x, x ∈ rocNamesFor (s.getMappedColumn col) →
          ∀ c' ∈ t, x ∉ rocNamesFor (s.getMappedColumn c') := by
        intro x hx c' hc' hx'
        exact hdisj hx (List.mem_flatMap.mpr ⟨c', hc', hx'⟩)
      have hroc : s.getMappedColumn col ++ "_roc" ∈ rocNamesFor (s.getMappedColumn col) := by
        simp [rocNamesFor]
      have hacc : s.getMappedColumn col ++ "_acceleration"
          ∈ rocNamesFor (s.getMappedColumn col) := by simp [rocNamesFor]
      have hpct : s.getMappedColumn col ++ "_pct_change"
          ∈ rocNamesFor (s.getMappedColumn col) := by simp [rocNamesFor]
      refine ⟨?_, ?_, ?_⟩
      · rw [getCol_rocFold_ne t _ (fun c' hc' => hnot _ hroc c' hc'), hstepcol]
        exact hstep.1
      · rw [getCol_rocFold_ne t _ (fun c' hc' => hnot _ hacc c' hc'), hstepcol]
        exact hstep.2.1
      · rw [getCol_rocFold_ne t _ (fun c' hc' => hnot _ hpct c' hc'), hstepcol]
        exact hstep.2.2
    · have hm' : getCol (rocForCol s df c) (s.getMappedColumn col) = some base := by
        rw [getCol_rocForCol_ne (hpres c (List.mem_cons_self _ _))]
        exact hm
      exact ih _ col base hmem hm' hnd.of_append_right
        (fun c' hc' => hpres c' (List.mem_cons_of_mem _ hc'))

theorem diffCol_getD_zero (c : Col) : (diffCol c).getD 0 none = none := by
  cases c with
  | nil => rfl
  | cons x rest =>
    unfold diffCol
    rw [getD_map_range _ (by simp), if_pos rfl]

theorem pctCol_getD_zero (c : Col) : (pctCol c).getD 0 none = none := by
  cases c with
  | nil => rfl
  | cons x rest =>
    unfold pctCol
    rw [getD_map_range _ (by simp), if_pos rfl]

theorem diffCol_getD {c : Col} {i : Nat} (hi : i < c.length) (h1 : 1 ≤ i) :
    (diffCol c).getD i none = csub (c.getD i none) (c.getD (i - 1) none) := by
  unfold diffCol
  rw [getD_map_range _ hi, if_neg (by omega)]

theorem pctCol_getD {c : Col} {i : Nat} (hi : i < c.length) (h1 : 1 ≤ i) :
    (pctCol c).getD i none
      = csub (cdiv ((ffillCol c).getD i none) ((ffillCol c).getD (i - 1) none))
        (some (.num 1)) := by
  unfold pctCol
  rw [getD_map_range _ hi, if_neg (by omega)]

theorem ffillColAux_getD_some :
    ∀ (c : Col) (last : Cell) (j : Nat) (v : PVal),
      c.getD j none = some v → (ffillColAux last c).getD j none = some v := by
  intro c
  induction c with
  | nil => intro last j v h; simp [List.getD] at h
  | cons x rest ih =>
    intro last j v h
    cases j with
    | zero =>
      rw [List.getD_cons_zero] at h
      subst h
      rfl
    | succ k =>
      rw [List.getD_cons_succ] at h
      cases x with
      | some u =>
        show (ffillColAux (some u) rest).getD k none = some v
        exact ih _ k v h
      | none =>
        show (ffillColAux last rest).getD k none = some v
        exact ih _ k v h

theorem ffillCol_getD_some {c : Col} {j : Nat} {v : PVal}
    (h : c.getD j none = some v) : (ffillCol c).getD j none = some v :=
  ffillColAux_getD_some c none j v h

/-- Claim C6 (amended): the rate-of-change generator stores the first
difference, the second difference, and the percentage change computed
over the forward-filled series; all three are missing at the first row.
At a row whose predecessor holds zero and whose own value is a nonzero
finite number, the percentage change is `±inf` — a present value, not a
missing one — because pandas division by zero produces an infinity. -/
theorem C6_rate_of_change (s : SchemaConfig) (df : Df) (col : String) (base : Col)
    (hcol : col ∈ s.continuous_columns)
    (hbase : getCol df (s.getMappedColumn col) = some base)
    (hnd : (allRocNames s).Nodup)
    (hpres : ∀ c ∈ s.continuous_columns,
        s.getMappedColumn col ∉ rocNamesFor (s.getMappedColumn c)) :
    getCol (createRateOfChangeFeatures s df) (s.getMappedColumn col ++ "_roc")
      = some (diffCol base)
    ∧ getCol (createRateOfChangeFeatures s df) (s.getMappedColumn col ++ "_acceleration")
      = some (diffCol (diffCol base))
    ∧ getCol (createRateOfChangeFeatures s df) (s.getMappedColumn col ++ "_pct_change")
      = some (pctCol base)
    ∧ (diffCol base).getD 0 none = none
    ∧ (diffCol (diffCol base)).getD 0 none = none
    ∧ (pctCol base).getD 0 none = none
    ∧ (∀ i, i < base.length → 1 ≤ i →
        (diffCol base).getD i none = csub (base.getD i none) (base.getD (i - 1) none))
    ∧ (∀ i, i < base.length → 1 ≤ i →
        (pctCol base).getD i none
          = csub (cdiv ((ffillCol base).getD i none) ((ffillCol base).getD (i - 1) none))
            (some (.num 1)))
    ∧ (∀ i, i < base.length → 1 ≤ i → ∀ q : ℚ,
        base.getD (i - 1) none = some (.num 0) → base.getD i none = some (.num q) →
        q ≠ 0 →
        (pctCol base).getD i none
          = some (if 0 < q then PVal.pinf else PVal.ninf)) := by
  have hfold := getCol_rocFold_self s.continuous_columns df col base hcol hbase hnd hpres
  refine ⟨hfold.1, hfold.2.1, hfold.2.2, diffCol_getD_zero _, diffCol_getD_zero _,
    pctCol_getD_zero _, fun i hi h1 => diffCol_getD hi h1, fun i hi h1 => pctCol_getD hi h1,
    ?_⟩
  intro i hi h1 q hprev hcur hq
  rw [pctCol_getD hi h1, ffillCol_getD_some hprev, ffillCol_getD_some hcur]
  show csub (PVal.div (.num q) (.num 0)) (some (.num 1)) = _
  have hdiv : PVal.div (.num q) (.num 0)
      = (if 0 < q then some PVal.pinf else some PVal.ninf) := by
    simp only [PVal.div]
    rw [if_pos trivial, if_neg hq]
  rw [hdiv]
  by_cases hpos : 0 < q
  · rw [if_pos hpos, if_pos hpos]
    rfl
  · rw [if_neg hpos, if_neg hpos]
    rfl

/-- Claim C6 is false as stated: with base values `[0, 5]`, the
percentage-change feature at row 1 is `+inf`, a present value, although
`value[0]` is zero — the claim requires it to be missing there. -/
theorem C6_counterexample :
    getCol (createRateOfChangeFeatures schema4
      [("temperature", [some (.num 0), some (.num 5)])]) "temperature_pct_change"
      = some [none, some PVal.pinf] := by
  rfl

/-- Witness for the amended claim C6 on the concrete three-row frame. -/
theorem C6_rate_of_change_witness :
    getCol (createRateOfChangeFeatures schema4 dfLag) "temperature_roc"
      = some (diffCol [some (.num 1), some (.num 2), some (.num 3)])
    ∧ (diffCol [some (.num 1), some (.num 2), some (.num 3)]).getD 0 none = none := by
  have h := C6_rate_of_change schema4 dfLag "temperature"
    [some (.num 1), some (.num 2), some (.num 3)]
    (by decide) (by rfl) (by decide) (by decide)
  exact ⟨h.1, h.2.2.2.1⟩

/-! Claim C8: the selector. -/

theorem mem_cols_getCol_isSome {df : Df} {n : String} (h : n ∈ cols df) :
    ∃ c, getCol df n = some c := by
  induction df with
  | nil => simp [cols] at h
  | cons p rest ih =>
    by_cases hp : p.1 = n
    · exact ⟨p.2, by simp [getCol, hp]⟩
    · simp only [cols, List.map_cons, List.mem_cons] at h
      rcases h with h | h
      · exact absurd h.symm hp
      · obtain ⟨c, hc⟩ := ih h
        exact ⟨c, by rw [getCol_cons_of_ne hp]; exact hc⟩

theorem mapOpt_map {A B C : Type} (f : B → Option C) (g : A → B) (l : List A) :
    mapOpt f (l.map g) = mapOpt (fun a => f (g a)) l := by
  induction l with
  | nil => rfl
  | cons a t ih => simp only [List.map_cons, mapOpt, ih]

theorem mapOpt_congr {A B : Type} {f g : A → Option B} :
    ∀ {l : List A}, (∀ a ∈ l, f a = g a) → mapOpt f l = mapOpt g l := by
  intro l
  induction l with
  | nil => intro _; rfl
  | cons a t ih =>
    intro h
    simp only [mapOpt, h a (List.mem_cons_self _ _),
      ih (fun x hx => h x (List.mem_cons_of_mem _ hx))]

theorem mapOpt_get?_range {A : Type} (l : List A) :
    mapOpt (fun i => l.get? i) (List.range l.length) = some l := by
  induction l with
  | nil => rfl
  | cons a t ih =>
    rw [List.length_cons, List.range_succ_eq_map]
    simp only [mapOpt, List.get?]
    rw [mapOpt_map]
    have hc : mapOpt (fun i => (a :: t).get? (Nat.succ i)) (List.range t.length)
        = mapOpt (fun i => t.get? i) (List.range t.length) :=
      mapOpt_congr (fun i _ => rfl)
    rw [hc, ih]

theorem reindex_total {df : Df} :
    ∀ {names : List String}, (∀ n ∈ names, ∃ c, getCol df n = some c) →
      ∃ r, reindex df names = some r := by
  intro names
  induction names with
  | nil => intro _; exact ⟨[], rfl⟩
  | cons n t ih =>
    intro h
    obtain ⟨c, hc⟩ := h n (List.mem_cons_self _ _)
    obtain ⟨r, hr⟩ := ih (fun x hx => h x (List.mem_cons_of_mem _ hx))
    refine ⟨(n, c) :: r, ?_⟩
    simp only [reindex, mapOpt] at hr ⊢
    rw [hc, hr]
    rfl

theorem topKIndices_ge (scores : List ℚ) (k : Nat) (hk : scores.length ≤ k) :
    topKIndices scores k = List.range scores.length := by
  letI : IsTotal ℕ (fun a b : ℕ => a ≤ b) := ⟨fun a b => Nat.le_total a b⟩
  letI : IsTrans ℕ (fun a b : ℕ => a ≤ b) := ⟨fun _ _ _ h1 h2 => Nat.le_trans h1 h2⟩
  letI : IsAntisymm ℕ (fun a b : ℕ => a ≤ b) := ⟨fun _ _ h1 h2 => Nat.le_antisymm h1 h2⟩
  simp only [topKIndices, argsortAsc]
  have hlen : (List.insertionSort (fun i j => scores.getD i 0 ≤ scores.getD j 0)
      (List.range scores.length)).length = scores.length := by
    rw [(List.perm_insertionSort _ _).length_eq, List.length_range]
  have h0 : scores.length - k = 0 := by omega
  rw [hlen, h0, List.drop_zero]
  have hperm : List.Perm (List.insertionSort (fun a b : ℕ => a ≤ b)
      (List.insertionSort (fun i j => scores.getD i 0 ≤ scores.getD j 0)
        (List.range scores.length))) (List.range scores.length) :=
    (List.perm_insertionSort _ _).trans (List.perm_insertionSort _ _)
  refine List.eq_of_perm_of_sorted (r := fun a b : ℕ => a ≤ b) hperm ?_ ?_
  · exact List.sorted_insertionSort _ _
  · exact (List.pairwise_lt_range _).imp (fun h => Nat.le_of_lt h)

/-- Claim C8 (amended, part proved here): when `k` is at least the number
of candidate features, the selector succeeds and returns all candidates —
in their original column order — together with the reduced frame holding
exactly the selected features plus target and timestamp. -/
theorem C8_selector_returns_all_candidates (scoreFn : List Col → Col → List ℚ)
    (s : SchemaConfig) (df : Df) (targetCol : String) (featureCols : List String)
    (k : Nat) (y : Col)
    (hy : getCol df targetCol = some y)
    (hall : featureCols.all (fun c => hasCol df c) = true)
    (hts : hasCol df s.timestamp_column = true)
    (hscore : (selectorScores scoreFn df featureCols y).length = featureCols.length)
    (hk : featureCols.length ≤ k) :
    ∃ dfSel, selectFeatures scoreFn s df targetCol featureCols k = some (dfSel, featureCols)
      ∧ cols dfSel = featureCols ++ [targetCol, s.timestamp_column] := by
  have hex : ∀ n ∈ featureCols ++ [targetCol, s.timestamp_column],
      ∃ c, getCol df n = some c := by
    intro n hn
    rcases List.mem_append.mp hn with hn | hn
    · have hhc := List.all_eq_true.mp hall n hn
      exact mem_cols_getCol_isSome (hasCol_iff.mp hhc)
    · rcases List.mem_cons.mp hn with rfl | hn
      · exact ⟨y, hy⟩
      · rcases List.mem_singleton.mp hn with rfl
        exact mem_cols_getCol_isSome (hasCol_iff.mp hts)
  obtain ⟨r, hr⟩ := reindex_total hex
  refine ⟨r, ?_, reindex_cols hr⟩
  simp only [selectFeatures, hy, hall, if_true]
  have htop : topKIndices (selectorScores scoreFn df featureCols y) featureCols.length
      = List.range featureCols.length := by
    have h1 := topKIndices_ge (selectorScores scoreFn df featureCols y) featureCols.length
      (le_of_eq hscore)
    rw [h1, hscore]
  rw [Nat.min_eq_right hk, htop, mapOpt_get?_range featureCols, Option.some_bind, hr,
    Option.map_some']

/-- Concrete score function: candidate 0 scores 3, candidate 1 scores 1,
candidate 2 scores 5. -/
def scoreFn8 : List Col → Col → List ℚ := fun _ _ => [3, 1, 5]

/-- Concrete one-row frame with three candidate features. -/
def df8 : Df :=
  [("a", [some (.num 1)]), ("b", [some (.num 1)]), ("c", [some (.num 1)]),
   ("t", [some (.num 0)]), ("timestamp", [some (.num 0)])]

/-- Claim C8 is false in its ordering part: with scores 3, 1, 5 and
`k = 2`, the retained candidates are `a` (score 3) and `c` (score 5), but
they are returned as `["a", "c"]` — ascending candidate order, as
`get_support(indices=True)` reports them — not in descending-score
relevance order `["c", "a"]`. -/
theorem C8_counterexample :
    (selectFeatures scoreFn8 schema5 df8 "t" ["a", "b", "c"] 2).map (fun p => p.2)
      = some ["a", "c"]
    ∧ scoreFn8 [] [] = [3, 1, 5] :=
  ⟨rfl, rfl⟩

/-- Witness for the amended claim C8: requesting `k = 5` of three
candidates returns all three in their original order. -/
theorem C8_selector_returns_all_candidates_witness :
    (selectFeatures scoreFn8 schema5 df8 "t" ["a", "b", "c"] 5).map (fun p => p.2)
      = some ["a", "b", "c"] := by
  obtain ⟨r, hr, -⟩ := C8_selector_returns_all_candidates scoreFn8 schema5 df8 "t"
    ["a", "b", "c"] 5 [some (.num 0)] (by rfl) (by decide) (by decide) (by decide)
    (by decide)
  rw [hr]
  rfl

/-! Claim C1: the feature-name enumeration versus the columns the
generator stages actually add. -/

/-- Columns present in `df'` but not in `df`: the columns a generator
chain added. -/
def addedCols (df df' : Df) : List String :=
  (cols df').filter (fun c => decide (c ∉ cols df))

theorem cols_mono_foldl {A : Type} {step : Df → A → Df}
    (hstep : ∀ d a x, x ∈ cols d → x ∈ cols (step d a)) :
    ∀ (l : List A) (d : Df) (x : String), x ∈ cols d → x ∈ cols (l.foldl step d) := by
  intro l
  induction l with
  | nil => intro d x h; exact h
  | cons a t ih =>
    intro d x h
    exact ih _ _ (hstep d a x h)

theorem cols_mono_time (ops : AbsOps) (s : SchemaConfig) :
    ∀ (d : Df) (x : String), x ∈ cols d → x ∈ cols (createTimeBasedFeatures ops s d) := by
  intro d x h
  simp only [createTimeBasedFeatures]
  split
  · repeat apply mem_cols_setCol
    exact h
  · exact h

theorem cols_mono_lagSetOne (m : String) :
    ∀ (d : Df) (lp : Nat × Nat) (x : String), x ∈ cols d → x ∈ cols (lagSetOne m d lp) := by
  intro d lp x h
  unfold lagSetOne
  cases getCol d m with
  | none => exact h
  | some base => exact mem_cols_setCol _ h _ _

theorem cols_mono_lag (cfg : DataConfig) (s : SchemaConfig) :
    ∀ (d : Df) (x : String), x ∈ cols d → x ∈ cols (createLagFeatures cfg s d) := by
  intro d x h
  simp only [createLagFeatures]
  refine cols_mono_foldl ?_ _ _ _ h
  intro d' c x' h'
  simp only [lagForCol]
  split
  · unfold lagStep
    exact cols_mono_foldl (fun d'' lp x'' h'' => cols_mono_lagSetOne _ _ _ _ h'') _ _ _ h'
  · exact h'

theorem cols_mono_rollingSetWin (sq : ℚ → ℚ) (m : String) :
    ∀ (d : Df) (w : Nat) (x : String), x ∈ cols d → x ∈ cols (rollingSetWin sq m d w) := by
  intro d w x h
  simp only [rollingSetWin]
  repeat apply mem_cols_setCol
  exact h

theorem cols_mono_rolling (ops : AbsOps) (s : SchemaConfig) :
    ∀ (d : Df) (x : String), x ∈ cols d → x ∈ cols (createRollingFeatures ops s d) := by
  intro d x h
  simp only [createRollingFeatures]
  refine cols_mono_foldl ?_ _ _ _ h
  intro d' c x' h'
  simp only [rollingForCol]
  split
  · unfold rollingStep
    exact cols_mono_foldl (fun d'' w x'' h'' => cols_mono_rollingSetWin _ _ _ _ _ h'')
      _ _ _ h'
  · exact h'

theorem cols_mono_rocStep (m : String) :
    ∀ (d : Df) (x : String), x ∈ cols d → x ∈ cols (rocStep m d) := by
  intro d x h
  simp only [rocStep]
  repeat apply mem_cols_setCol
  exact h

theorem cols_mono_roc (s : SchemaConfig) :
    ∀ (d : Df) (x : String), x ∈ cols d → x ∈ cols (createRateOfChangeFeatures s d) := by
  intro d x h
  simp only [createRateOfChangeFeatures]
  refine cols_mono_foldl ?_ _ _ _ h
  intro d' c x' h'
  simp only [rocForCol]
  split
  · exact cols_mono_rocStep _ _ _ h'
  · exact h'

theorem cols_mono_interaction (s : SchemaConfig) :
    ∀ (d : Df) (x : String), x ∈ cols d → x ∈ cols (createInteractionFeatures s d) := by
  intro d x h
  simp only [createInteractionFeatures]
  refine cols_mono_foldl ?_ _ _ _ h
  intro d' pr x' h'
  split
  · simp only [interactionStep]
    repeat apply mem_cols_setCol
    exact h'
  · exact h'

theorem cols_mono_statistical (ops : AbsOps) (s : SchemaConfig) :
    ∀ (d : Df) (x : String), x ∈ cols d → x ∈ cols (createStatisticalFeatures ops s d) := by
  intro d x h
  simp only [createStatisticalFeatures]
  split
  · repeat apply mem_cols_setCol
    exact h
  · exact h

theorem cols_mono_anomalyStep (sq : ℚ → ℚ) (m : String) :
    ∀ (d : Df) (x : String), x ∈ cols d → x ∈ cols (anomalyStep sq m d) := by
  intro d x h
  simp only [anomalyStep]
  repeat apply mem_cols_setCol
  exact h

theorem cols_mono_anomaly (sq : ℚ → ℚ) (s : SchemaConfig) :
    ∀ (d : Df) (x : String), x ∈ cols d → x ∈ cols (createAnomalyFeatures sq s d) := by
  intro d x h
  simp only [createAnomalyFeatures]
  refine cols_mono_foldl ?_ _ _ _ h
  intro d' c x' h'
  split
  · exact cols_mono_anomalyStep _ _ _ _ h'
  · exact h'

theorem cols_mono_domain (s : SchemaConfig) :
    ∀ (d : Df) (x : String), x ∈ cols d → x ∈ cols (createDomainSpecificFeatures s d) := by
  intro d x h
  simp only [createDomainSpecificFeatures]
  repeat' split
  all_goals repeat apply mem_cols_setCol
  all_goals exact h

/-- Concrete schema with one continuous and one boolean column. -/
def schema1 : SchemaConfig :=
  { continuous_columns := ["temperature"], boolean_columns := ["pump_status"],
    column_mapping := [], lag_seconds := [60], rolling_windows := [5],
    target_column := "failure_indicator", timestamp_column := "timestamp" }

/-- Concrete two-row frame containing every column `schema1` declares. -/
def df1 : Df :=
  [("temperature", [some (.num 1), some (.num 2)]),
   ("pump_status", [some (.num 1), some (.num 1)]),
   ("failure_indicator", [some (.num 0), some (.num 0)])]

/-- Claim C1 is false in its set-equality part: on a table containing
every declared column, the columns the generator stages add are
`lag, rolling mean / std / min / max / median, roc, acceleration,
pct_change, z_score, anomaly, distance_from_mean, temp_efficiency,
temp_stress` — while `get_all_feature_columns` lists the base columns
(which are not added) and omits the rolling median and everything past
the four rolling statistics.  The enumeration itself is duplicate-free. -/
theorem C1_counterexample :
    schema1.getAllFeatureColumns.Nodup
    ∧ addedCols df1 (runGenerators absOps0 cfg0 schema1 df1)
        = ["temperature_lag_60s", "temperature_rolling_mean_5", "temperature_rolling_std_5",
           "temperature_rolling_min_5", "temperature_rolling_max_5",
           "temperature_rolling_median_5", "temperature_roc", "temperature_acceleration",
           "temperature_pct_change", "temperature_z_score", "temperature_anomaly",
           "temperature_distance_from_mean", "temp_efficiency", "temp_stress"]
    ∧ (addedCols df1 (runGenerators absOps0 cfg0 schema1 df1)).toFinset
        ≠ schema1.getAllFeatureColumns.toFinset := by
  refine ⟨by decide, by rfl, ?_⟩
  intro heq
  have hmem : "temperature_rolling_median_5"
      ∈ (addedCols df1 (runGenerators absOps0 cfg0 schema1 df1)).toFinset := by
    rw [List.mem_toFinset]
    rw [show addedCols df1 (runGenerators absOps0 cfg0 schema1 df1)
        = ["temperature_lag_60s", "temperature_rolling_mean_5", "temperature_rolling_std_5",
           "temperature_rolling_min_5", "temperature_rolling_max_5",
           "temperature_rolling_median_5", "temperature_roc", "temperature_acceleration",
           "temperature_pct_change", "temperature_z_score", "temperature_anomaly",
           "temperature_distance_from_mean", "temp_efficiency", "temp_stress"] from rfl]
    decide
  rw [heq, List.mem_toFinset] at hmem
  exact (by decide : "temperature_rolling_median_5" ∉ schema1.getAllFeatureColumns) hmem

/-- Claim C1 (amended): for the concrete one-continuous / one-boolean
schema and any table containing the declared columns (and not already
containing the generated rolling-median name), the enumeration
`get_all_feature_columns` is duplicate-free, but it is not the set of
columns the generator stages add: the generators add the rolling-median
column, which the enumeration omits, while the enumeration lists the base
column, which the generators do not add. -/
theorem C1_enumeration_differs_from_added (ops : AbsOps) (cfg : DataConfig) (df : Df)
    (htemp : "temperature" ∈ cols df)
    (_hpump : "pump_status" ∈ cols df)
    (hmed : "temperature_rolling_median_5" ∉ cols df) :
    schema1.getAllFeatureColumns.Nodup
    ∧ "temperature_rolling_median_5" ∈ addedCols df (runGenerators ops cfg schema1 df)
    ∧ "temperature_rolling_median_5" ∉ schema1.getAllFeatureColumns
    ∧ "temperature" ∈ schema1.getAllFeatureColumns
    ∧ "temperature" ∉ addedCols df (runGenerators ops cfg schema1 df)
    ∧ (addedCols df (runGenerators ops cfg schema1 df)).toFinset
        ≠ schema1.getAllFeatureColumns.toFinset := by
  have htemp1 : "temperature" ∈ cols (createTimeBasedFeatures ops schema1 df) :=
    cols_mono_time ops schema1 df _ htemp
  have htemp2 : "temperature"
      ∈ cols (createLagFeatures cfg schema1 (createTimeBasedFeatures ops schema1 df)) :=
    cols_mono_lag cfg schema1 _ _ htemp1
  have h3 : "temperature_rolling_median_5" ∈ cols (createRollingFeatures ops schema1
      (createLagFeatures cfg schema1 (createTimeBasedFeatures ops schema1 df))) := by
    show _ ∈ cols (rollingForCol ops.sqrt schema1
      (createLagFeatures cfg schema1 (createTimeBasedFeatures ops schema1 df)) "temperature")
    simp only [rollingForCol]
    rw [show schema1.getMappedColumn "temperature" = "temperature" from rfl,
      if_pos (hasCol_iff.mpr htemp2)]
    show _ ∈ cols (rollingSetWin ops.sqrt "temperature"
      (createLagFeatures cfg schema1 (createTimeBasedFeatures ops schema1 df)) 5)
    rw [show ("temperature_rolling_median_5" : String)
      = rollingColName "temperature" "median" 5 from rfl]
    simp only [rollingSetWin]
    exact mem_cols_setCol_self _ _ _
  have hout : "temperature_rolling_median_5" ∈ cols (runGenerators ops cfg schema1 df) := by
    show "temperature_rolling_median_5" ∈ cols (createDomainSpecificFeatures schema1
      (createAnomalyFeatures ops.sqrt schema1 (createStatisticalFeatures ops schema1
        (createInteractionFeatures schema1 (createRateOfChangeFeatures schema1
          (createRollingFeatures ops schema1 (createLagFeatures cfg schema1
            (createTimeBasedFeatures ops schema1 df))))))))
    exact cols_mono_domain _ _ _ (cols_mono_anomaly _ _ _ _ (cols_mono_statistical _ _ _ _
      (cols_mono_interaction _ _ _ (cols_mono_roc _ _ _ h3))))
  have hadd : "temperature_rolling_median_5"
      ∈ addedCols df (runGenerators ops cfg schema1 df) := by
    refine List.mem_filter.mpr ⟨hout, ?_⟩
    exact decide_eq_true hmed
  have hnotE : "temperature_rolling_median_5" ∉ schema1.getAllFeatureColumns := by decide
  refine ⟨by decide, hadd, hnotE, by decide, ?_, ?_⟩
  · intro hmem'
    have hpred := (List.mem_filter.mp hmem').2
    exact (of_decide_eq_true hpred) htemp
  · intro heq
    have hmem : "temperature_rolling_median_5" ∈ schema1.getAllFeatureColumns.toFinset := by
      rw [← heq]
      exact List.mem_toFinset.mpr hadd
    exact hnotE (List.mem_toFinset.mp hmem)

/-- Witness for the amended claim C1 on the concrete frame `df1`. -/
theorem C1_enumeration_differs_from_added_witness :
    schema1.getAllFeatureColumns.Nodup
    ∧ "temperature_rolling_median_5" ∈ addedCols df1 (runGenerators absOps0 cfg0 schema1 df1)
    ∧ "temperature_rolling_median_5" ∉ schema1.getAllFeatureColumns
    ∧ "temperature" ∈ schema1.getAllFeatureColumns
    ∧ "temperature" ∉ addedCols df1 (runGenerators absOps0 cfg0 schema1 df1)
    ∧ (addedCols df1 (runGenerators absOps0 cfg0 schema1 df1)).toFinset
        ≠ schema1.getAllFeatureColumns.toFinset :=
  C1_enumeration_differs_from_added absOps0 cfg0 df1 (by decide) (by decide) (by decide)
